import Mathlib

set_option maxRecDepth 40000

/-!
# Shallow embedding of the ATS resume analyzer

This file embeds the core pipeline of `src/analyzer.py` (with the thin web
glue of `src/app.py` treated as an external caller) and proves properties of
it.  Pure Python functions become Lean functions; the external collaborators
(the spaCy pipeline `nlp`, the OCR engine, the summarizer, and the PDF/DOCX
readers) are modelled as explicit function parameters, with `Option` marking
availability.  Python float expressions are handled as follows: the score
expression `int((len(overlap)/len(jd_lemmas))*100)` is sensitive to binary64
rounding on realistic inputs (29 of 100 gives 28, not 29), so it is modelled
exactly: `flRound` below implements IEEE-754 round-to-nearest-ties-to-even on
scaled integers and `pyDivMul100Trunc` evaluates the expression as Python
does.  The two remaining float comparisons (`quantified/len(lines) < 0.3`
and `round(0.4*q + 0.6*s)`) are modelled by exact arithmetic, which provably
agrees with binary64 evaluation on their ranges: the first would need more
than 10^15 lines to differ from the exact comparison against 3/10, and the
second rounds a value whose fractional part is in {0, .2, .4, .6, .8}, a
distance 0.1 from any rounding boundary against float error below 1e-13.
-/

/-- ASCII whitespace as treated by Python's `str.strip`, argument-less
`str.split` and the regex class `\s`. -/
def pyWS (c : Char) : Bool :=
  c = ' ' || c = '\t' || c = '\n' || c = '\r' || c = '\x0b' || c = '\x0c'

/-- Python `str.strip()` (ASCII whitespace). -/
def pyStrip (s : String) : String :=
  ⟨((s.data.dropWhile pyWS).reverse.dropWhile pyWS).reverse⟩

/-- Python `str.lower()` (ASCII range). -/
def pyLower (s : String) : String := ⟨s.data.map Char.toLower⟩

/-- Split a char list at every char satisfying `p`, keeping empty pieces
(the splitting chars are dropped). -/
def splitPred (p : Char → Bool) : List Char → List (List Char)
  | [] => [[]]
  | c :: rest =>
    match splitPred p rest with
    | [] => [[]]
    | h :: t => if p c then [] :: h :: t else (c :: h) :: t

/-- Python `str.split('\n')` (and `text.split('\n')` in the source): split at
newlines, keeping empty pieces. -/
def pySplitOnNl (s : String) : List String :=
  (splitPred (fun c => c = '\n') s.data).map (fun l => (⟨l⟩ : String))

/-- Python `str.split()` with no argument: split on whitespace runs, dropping
empty pieces. -/
def pySplitWs (s : String) : List String :=
  ((splitPred pyWS s.data).map (fun l => (⟨l⟩ : String))).filter
    (fun w => w ≠ "")

/-- `sep.join(l)` for a separator string. -/
def joinSep (sep : String) : List String → String
  | [] => ""
  | [x] => x
  | x :: xs => x ++ sep ++ joinSep sep xs

/-- `"".join(l)` / bare string concatenation of a list. -/
def joinAll : List String → String
  | [] => ""
  | x :: xs => x ++ joinAll xs

/-- Char-list prefix test. -/
def chPre : List Char → List Char → Bool
  | [], _ => true
  | _ :: _, [] => false
  | a :: as, b :: bs => a = b && chPre as bs

/-- Char-list substring containment. -/
def chSub (pat : List Char) : List Char → Bool
  | [] => pat.isEmpty
  | c :: rest => chPre pat (c :: rest) || chSub pat rest

/-- Python's `pat in s` substring test. -/
def strContains (s pat : String) : Bool := chSub pat.data s.data

/-- `any(char.isdigit() for char in s)` (ASCII digits). -/
def strHasDigit (s : String) : Bool := s.data.any Char.isDigit

/-- Collapse each run of spaces/tabs to a single space:
`re.sub(r'[ \t]+', ' ', s)`.  The boolean records whether the previous
character was part of a space/tab run already emitted. -/
def collapseSpaceTabAux : Bool → List Char → List Char
  | _, [] => []
  | inRun, c :: rest =>
    if c = ' ' || c = '\t' then
      (if inRun then [] else [' ']) ++ collapseSpaceTabAux true rest
    else c :: collapseSpaceTabAux false rest

/-- `re.sub(r'[ \t]+', ' ', s)`. -/
def collapseSpaceTab (s : String) : String := ⟨collapseSpaceTabAux false s.data⟩

/-- Flush a pending whitespace run: if the run contained a newline it is the
site of a `\s*\n\s*` match and is replaced by `repl`, otherwise it is kept. -/
def flushRun (repl pending : List Char) : List Char :=
  if pending.contains '\n' then repl else pending

/-- Worker for `re.sub(r'\s*\n\s*', repl, s)`: maximal whitespace runs that
contain a newline are replaced by `repl`; other text is kept.  `pending` is
the whitespace run currently being scanned. -/
def collapseNlAux (repl : List Char) : List Char → List Char → List Char
  | pending, [] => flushRun repl pending
  | pending, c :: rest =>
    if pyWS c then collapseNlAux repl (pending ++ [c]) rest
    else flushRun repl pending ++ c :: collapseNlAux repl [] rest

/-- `re.sub(r'\s*\n\s*', repl, s)` for a fixed replacement `repl`. -/
def collapseNl (repl : List Char) (s : String) : String :=
  ⟨collapseNlAux repl [] s.data⟩

/-- Post-extraction normalization of `master_text_extractor`:
collapse space/tab runs, collapse whitespace around newlines, strip. -/
def normalizeText (s : String) : String :=
  pyStrip (collapseNl ['\n'] (collapseSpaceTab s))

/-- A token produced by the linguistic pipeline (spaCy), with the attributes
the analyzer reads. -/
structure Token where
  lemma_ : String
  is_stop : Bool
  is_punct : Bool
  is_alpha : Bool

/-- The external lemmatizer: text to token sequence. -/
def Nlp : Type := String → List Token

/-- The unique-lemma set of a text: lemmas of tokens that are alphabetic,
not stopwords and not punctuation (`{token.lemma_ for token in nlp(text) ...}`).
The Python set is modelled as a deduplicated list; every downstream use
(length, membership, sorting) is independent of element order. -/
def lemmaList (f : Nlp) (text : String) : List String :=
  (((f text).filter (fun t => !t.is_stop && !t.is_punct && t.is_alpha)).map
    Token.lemma_).dedup

/-- Number of binary digits of `n`, computed with explicit fuel so that the
kernel can evaluate it (`bitLenAux fuel n` is correct whenever `n ≤ fuel`). -/
def bitLenAux : Nat → Nat → Nat
  | 0, _ => 0
  | fuel + 1, n => if n = 0 then 0 else bitLenAux fuel (n / 2) + 1

/-- Number of binary digits of `n`: for `1 ≤ n`, `2^(bitLen n - 1) ≤ n < 2^(bitLen n)`. -/
def bitLen (n : Nat) : Nat := bitLenAux n n

/-- Fueled search for the least `k` with `d ≤ acc * 2^k`. -/
def clogAux : Nat → Nat → Nat → Nat
  | 0, _, _ => 0
  | fuel + 1, acc, d => if d ≤ acc then 0 else clogAux fuel (acc * 2) d + 1

/-- For `1 ≤ n < d`: the least `k` with `d ≤ n * 2^k` (so `2^(-k) ≤ n/d < 2^(-k+1)`). -/
def clogND (n d : Nat) : Nat := clogAux d n d

/-- Round the non-negative rational `num / den` (`den ≥ 1`) to the nearest
integer, ties to even — the IEEE-754 default rounding applied on an integer
grid. -/
def roundHalfEven (num den : Nat) : Nat :=
  let q := num / den
  let r := num % den
  if 2 * r < den then q
  else if den < 2 * r then q + 1
  else if q % 2 = 0 then q else q + 1

/-- IEEE-754 binary64 rounding (round to nearest, ties to even) of the
non-negative rational `n / d`, returned as a scaled integer `(m, p)` whose
value is `m * 2^p`.  The unit in the last place is `2^(e-52)` where
`2^e ≤ n/d < 2^(e+1)`, clamped at the subnormal limit `2^(-1074)`.
(Overflow cannot occur for the values this file feeds it, all below 2^53.) -/
def flRound (n d : Nat) : Nat × ℤ :=
  if n = 0 ∨ d = 0 then (0, 0)
  else
    let e : ℤ := if d ≤ n then (bitLen (n / d) : ℤ) - 1 else -(clogND n d : ℤ)
    let p : ℤ := max (e - 52) (-1074)
    let m :=
      if 0 ≤ p then roundHalfEven n (d * 2 ^ p.toNat)
      else roundHalfEven (n * 2 ^ (-p).toNat) d
    (m, p)

/-- The scaled value `m * 2^p` as a `(numerator, denominator)` pair. -/
def scaledToFrac (m : Nat) (p : ℤ) : Nat × Nat :=
  if 0 ≤ p then (m * 2 ^ p.toNat, 1) else (m, 2 ^ (-p).toNat)

/-- Python `int(y)` for the non-negative scaled value `m * 2^p`. -/
def truncScaled (m : Nat) (p : ℤ) : Nat :=
  if 0 ≤ p then m * 2 ^ p.toNat else m / 2 ^ (-p).toNat

/-- The scaled value `m * 2^p` as a rational (used only in proofs). -/
def scaledVal (m : Nat) (p : ℤ) : ℚ := (m : ℚ) * (2 : ℚ) ^ p

/-- `int((o / j) * 100)` evaluated exactly as Python evaluates it in binary64
floating point: one correctly-rounded division, one correctly-rounded
multiplication by 100 (an int that converts to a double exactly), then
truncation toward zero.  This differs from the exact `⌊100 * o / j⌋` on
realistic inputs, e.g. `o = 29, j = 100` yields 28. -/
def pyDivMul100Trunc (o j : Nat) : Nat :=
  let s1 := flRound o j
  let nd := scaledToFrac (100 * s1.1) s1.2
  let s2 := flRound nd.1 nd.2
  truncScaled s2.1 s2.2

/-- Result record of `match_job_description`. -/
structure MatchResult where
  score : Nat
  missing_keywords : List String
  overlap_keywords : List String
deriving DecidableEq

/-- `match_job_description(resume_text, job_description_text)` from
`src/analyzer.py`.  The Python `int((len(overlap)/len(jd_lemmas))*100)` is
evaluated in binary64 floating point; it is modelled exactly by
`pyDivMul100Trunc` above.  `sorted(list(...))` is modelled by insertion sort
under Lean's `String` order (lexicographic on code points, matching Python);
on the duplicate-free lists involved, any sorted permutation is unique, so
this equals Python's output. -/
def match_job_description (nlp : Option Nlp)
    (resume_text job_description_text : String) : MatchResult :=
  match nlp with
  | none => ⟨0, [], []⟩
  | some f =>
    let resume_lemmas := lemmaList f (pyLower resume_text)
    let jd_lemmas := lemmaList f (pyLower job_description_text)
    if jd_lemmas = [] then ⟨0, [], []⟩
    else
      let overlap := resume_lemmas.filter (fun x => x ∈ jd_lemmas)
      { score := pyDivMul100Trunc overlap.length jd_lemmas.length
        missing_keywords :=
          List.insertionSort (· ≤ ·)
            (jd_lemmas.filter (fun x => x ∉ resume_lemmas))
        overlap_keywords := List.insertionSort (· ≤ ·) overlap }

/-- The four section keys of the SectionMap. -/
inductive SectionKey
  | profile_summary
  | work_experience
  | education
  | skills
deriving DecidableEq

/-- The parsed SectionMap: the four fixed keys. -/
structure Sections where
  profile_summary : String
  work_experience : String
  education : String
  skills : String
deriving DecidableEq

/-- The heading-keyword table of `parse_sections_by_iteration`. -/
def section_keywords : List (SectionKey × List String) :=
  [ (.profile_summary, ["summary", "profile", "objective"]),
    (.work_experience,
      ["experience", "work history", "professional experience",
       "experience details"]),
    (.education,
      ["education", "academic background", "academic record",
       "professional qualification"]),
    (.skills,
      ["skills", "technical skills", "technical proficiency", "tools",
       "skill set", "core competencies", "areas of expertise",
       "computer skills"]) ]

/-- The inverted `keyword_to_section` mapping (the keyword lists are pairwise
disjoint, so the first hit is the unique one). -/
def keyword_to_section (w : String) : Option SectionKey :=
  (section_keywords.find? (fun p => p.2.contains w)).map Prod.fst

/-- `line.strip().lower().replace(':', '')` (replacement by the empty string
removes every colon). -/
def cleanedLine (line : String) : String :=
  ⟨(pyLower (pyStrip line)).data.filter (fun c => c ≠ ':')⟩

/-- Heading recognition: the cleaned line has 1 to 4 words and is exactly a
keyword of the table. -/
def headingKey (line : String) : Option SectionKey :=
  let c := cleanedLine line
  let n := (pySplitWs c).length
  if 1 ≤ n ∧ n ≤ 4 then keyword_to_section c else none

/-- Per-section line accumulators. -/
structure SecAcc where
  ps : List String
  we : List String
  ed : List String
  sk : List String
deriving DecidableEq

/-- Append a raw line to one section's accumulator. -/
def SecAcc.push (a : SecAcc) : SectionKey → String → SecAcc
  | .profile_summary, l => { a with ps := a.ps ++ [l] }
  | .work_experience, l => { a with we := a.we ++ [l] }
  | .education, l => { a with ed := a.ed ++ [l] }
  | .skills, l => { a with sk := a.sk ++ [l] }

/-- One step of the line loop of `parse_sections_by_iteration`: a recognized
heading switches the cursor and consumes the line; otherwise the line joins
the current section, or is discarded when no heading was seen yet. -/
def parseStep (st : Option SectionKey × SecAcc) (line : String) :
    Option SectionKey × SecAcc :=
  match headingKey line with
  | some k => (some k, st.2)
  | none =>
    match st.1 with
    | some k => (some k, st.2.push k line)
    | none => st

/-- `parse_sections_by_iteration(text)` from `src/analyzer.py`. -/
def parse_sections_by_iteration (text : String) : Sections :=
  let fin := (pySplitOnNl text).foldl parseStep (none, ⟨[], [], [], []⟩)
  { profile_summary := pyStrip (joinSep "\n" fin.2.ps)
    work_experience := pyStrip (joinSep "\n" fin.2.we)
    education := pyStrip (joinSep "\n" fin.2.ed)
    skills := pyStrip (joinSep "\n" fin.2.sk) }

/-- `OUTDATED_TECH` (a Python set literal; modelled in declaration order). -/
def OUTDATED_TECH : List String :=
  ["flash", "jquery", "svn", "subversion", "visual basic", "vb.net",
   "webforms", "soap", "angularjs"]

/-- `BUZZWORDS` (a Python set literal; modelled in declaration order). -/
def BUZZWORDS : List String :=
  ["synergy", "go-getter", "team player", "results-oriented", "dynamic",
   "proactive", "thought leader", "self-starter"]

/-- `ACTION_VERBS` (a Python set literal; modelled in declaration order). -/
def ACTION_VERBS : List String :=
  ["achieved", "accelerated", "improved", "drove", "managed", "created",
   "launched", "led", "increased", "decreased", "optimized"]

/-- `EDUCATION_TERMS` (a Python set literal; modelled in declaration order). -/
def EDUCATION_TERMS : List String :=
  ["b.s", "b.a", "m.s", "m.a", "ph.d", "bachelor", "master", "doctorate",
   "university", "college", "institute"]

def skillsMissingMsg : String :=
  "A dedicated 'Skills' section is crucial for ATS and is missing."

def workExpMissingMsg : String :=
  "A standard 'Work Experience' section was not found."

/-- The buzzword message; Python joins the found set in unspecified set
order, modelled here in `BUZZWORDS` declaration order. -/
def buzzMsg (found : List String) : String :=
  "Profile summary uses buzzwords: " ++ joinSep ", " found ++ "."

def valuePropMsg : String :=
  "Profile summary may lack a clear value proposition."

def degreeMsg : String :=
  "Education section may be missing degree or institution information."

def yearMsg : String :=
  "Education section is missing a clear graduation year."

def eduNotFoundMsg : String :=
  "An 'Education' section was not found."

def quantMsg : String :=
  "Work experience lacks quantification. Add metrics to show impact."

def graphicsHeavyMsg : String :=
  "Resume appears to be graphics-heavy or image-based."

/-- `BUZZWORDS.intersection(summary_text.lower().split())`, in `BUZZWORDS`
declaration order. -/
def foundBuzzwords (summary_text : String) : List String :=
  BUZZWORDS.filter (fun b => (pySplitWs (pyLower summary_text)).contains b)

/-- `\w` word characters of Python's ASCII regex semantics. -/
def isWordCh (c : Char) : Bool := c.isAlphanum || c = '_'

/-- Whether `(19|20)\d{2}\b` matches at the head of the char list. -/
def yearAtHere : List Char → Bool
  | a :: b :: c :: d :: rest =>
    ((a = '1' && b = '9') || (a = '2' && b = '0')) && c.isDigit && d.isDigit &&
      (match rest with
       | [] => true
       | e :: _ => !isWordCh e)
  | _ => false

/-- Scan for `\b(19|20)\d{2}\b`; `boundary` records whether the current
position has a word boundary on its left. -/
def hasYearAux : Bool → List Char → Bool
  | _, [] => false
  | boundary, c :: rest =>
    (boundary && yearAtHere (c :: rest)) || hasYearAux (!isWordCh c) rest

/-- `re.search(r'\b(19|20)\d{2}\b', s)` as a Boolean. -/
def hasGradYear (s : String) : Bool := hasYearAux true s.data

/-- Qualifying work-experience lines: stripped length above 15. -/
def expQualifyingLines (t : String) : List String :=
  (pySplitOnNl t).filter (fun l => 15 < (pyStrip l).length)

/-- Count of qualifying lines containing a digit. -/
def expQuantifiedCount (t : String) : Nat :=
  ((expQualifyingLines t).filter (fun l => strHasDigit l)).length

/-- `quantification_ratio = (quantified_lines / len(lines)) if lines else 0`,
in exact arithmetic. -/
def quantFrac (t : String) : ℚ :=
  if (expQualifyingLines t).length = 0 then 0
  else (expQuantifiedCount t : ℚ) / ((expQualifyingLines t).length : ℚ)

/-- The two formatting checks of `compile_issues`: missing skills section,
missing work-experience section (Python truthiness: the empty string counts
as missing). -/
def formattingIssuesOf (sections : Sections) : List String :=
  (if sections.skills = "" then [skillsMissingMsg] else []) ++
  (if sections.work_experience = "" then [workExpMissingMsg] else [])

/-- The profile-summary content checks of `compile_issues`: buzzwords, then
value proposition. -/
def summaryIssues (summary_text : String) : List String :=
  if summary_text ≠ "" then
    (if foundBuzzwords summary_text ≠ [] then
      [buzzMsg (foundBuzzwords summary_text)] else []) ++
    (if !strHasDigit summary_text &&
        !(ACTION_VERBS.any (fun v => strContains (pyLower summary_text) v))
     then [valuePropMsg] else [])
  else []

/-- The education content checks of `compile_issues`: degree/institution and
graduation year when the section is present, otherwise the not-found issue. -/
def educationIssues (education_text : String) : List String :=
  if education_text ≠ "" then
    (if !(EDUCATION_TERMS.any
          (fun t => strContains (pyLower education_text) t)) then
      [degreeMsg] else []) ++
    (if !hasGradYear education_text then [yearMsg] else [])
  else [eduNotFoundMsg]

/-- The work-experience quantification check of `compile_issues`.  The float
test `quantification_ratio < 0.3` (with ratio `0` for an empty denominator)
is modelled by the exactly equivalent integer test
`lines = [] ∨ 10 * quantified < 3 * lines.length`; the equivalence with the
rational statement `quantFrac < 3/10` is proved below. -/
def expIssues (exp_text : String) : List String :=
  if exp_text ≠ "" then
    if (expQualifyingLines exp_text).length = 0 ∨
        10 * expQuantifiedCount exp_text <
          3 * (expQualifyingLines exp_text).length then
      [quantMsg]
    else []
  else []

/-- `list(OUTDATED_TECH.intersection(token.lemma_.lower() for token in nlp(raw_text)))`,
in `OUTDATED_TECH` declaration order; `[]` when the lemmatizer is missing. -/
def outdatedOf (nlp : Option Nlp) (raw_text : String) : List String :=
  match nlp with
  | none => []
  | some f =>
    OUTDATED_TECH.filter
      (fun t => ((f raw_text).map (fun tok => pyLower tok.lemma_)).contains t)

/-- `compile_issues(sections, raw_text)` from `src/analyzer.py`, returning
`(formatting_issues, content_issues, outdated_tech)`, built from the checks
above in source order. -/
def compile_issues (nlp : Option Nlp) (sections : Sections)
    (raw_text : String) : List String × List String × List String :=
  (formattingIssuesOf sections,
   summaryIssues sections.profile_summary ++
     educationIssues sections.education ++
     expIssues sections.work_experience,
   outdatedOf nlp raw_text)

/-- The grade expression of `calculate_scores`: the `{80:"A",70:"B",60:"C",40:"D"}`
dict is iterated in insertion order, first threshold reached wins, default "F". -/
def grade_of (final_score : Nat) : String :=
  if 80 ≤ final_score then "A"
  else if 70 ≤ final_score then "B"
  else if 60 ≤ final_score then "C"
  else if 40 ≤ final_score then "D"
  else "F"

/-- `calculate_scores` from `src/analyzer.py`.  `round(q*0.4 + s*0.6)` is
modelled as `(4*q + 6*s + 5) / 10` in `Nat`: the exact value `(4q+6s)/10` has
fractional part in {0, .2, .4, .6, .8}, never .5, so Python's
round-half-to-even equals `⌊x + 1/2⌋`. -/
def calculate_scores (formatting_issues content_issues outdated_tech : List String)
    (jd_match_score : Nat) : Nat × String :=
  let total_failures := formatting_issues.length + content_issues.length
  let quality_score : Nat :=
    (max 0 (100 - 10 * (total_failures : ℤ) -
      5 * (outdated_tech.length : ℤ))).toNat
  let final_score := (4 * quality_score + 6 * jd_match_score + 5) / 10
  (final_score, grade_of final_score)

/-- Rank of a grade letter, for stating monotonicity. -/
def gradeRank (g : String) : Nat :=
  if g = "A" then 4
  else if g = "B" then 3
  else if g = "C" then 2
  else if g = "D" then 1
  else 0

def jobFitRecMsg (missing : List String) : String :=
  "**Improve Job Fit:** Your resume is missing key terms from the job description. To better match the role, integrate these keywords: **" ++
    joinSep ", " (missing.take 8) ++ "**."

def sectionHeadersRecMsg : String :=
  "**Check Section Headers:** To ensure automated systems read your resume correctly, use standard titles like **'Work Experience'** and **'Technical Skills'**."

def profileRecMsg : String :=
  "**Rewrite Your Profile Summary:** Your summary may use generic phrases. Create a stronger value proposition with powerful action verbs and achievements."

def quantifyRecMsg : String :=
  "**Quantify Your Achievements:** Your work experience lacks metrics. Strengthen your bullet points by adding numbers, percentages (%), or dollar amounts ($)."

def techRecMsg : String :=
  "**Update Your Technology Stack:** Your resume mentions potentially outdated technologies. Prioritize highlighting modern tools relevant to the job."

def fallbackRecMsg : String :=
  "Your resume is strong and well-aligned. No major recommendations at this time."

/-- `generate_personalized_recommendations` from `src/analyzer.py`, taking the
report fields it reads (all are always present in the assembled report). -/
def generate_personalized_recommendations (jd_score : Nat)
    (missing_keywords formatting_issues content_issues outdated_tech :
      List String) : List String :=
  let recs :=
    (if jd_score < 75 ∧ missing_keywords ≠ [] then
      [jobFitRecMsg missing_keywords] else []) ++
    (if formatting_issues.any (fun i => strContains i "section") then
      [sectionHeadersRecMsg] else []) ++
    (if content_issues.any (fun i => strContains i "value proposition") then
      [profileRecMsg] else []) ++
    (if content_issues.any (fun i => strContains i "quantification") then
      [quantifyRecMsg] else []) ++
    (if outdated_tech ≠ [] then [techRecMsg] else [])
  if recs = [] then [fallbackRecMsg] else recs

/-- `DOMAIN_KEYWORDS` in source (insertion) order; the per-domain keyword
sets are modelled in declaration order (only their membership matters). -/
def DOMAIN_KEYWORDS : List (String × List String) :=
  [ ("software",
      ["engineer", "developer", "python", "java", "aws", "software", "api",
       "database", "git", "cloud"]),
    ("marketing",
      ["marketing", "campaign", "brand", "seo", "ppc", "content", "digital",
       "analytic", "social media"]),
    ("graphic_designer",
      ["graphic", "photoshop", "illustrator", "figma", "design", "visual",
       "assets", "branding"]),
    ("scm",
      ["supply chain", "scm", "logistics", "warehousing", "distribution",
       "procurement", "inventory", "freight"]) ]

/-- `DEFAULT_JDS` in source order. -/
def DEFAULT_JDS : List (String × String) :=
  [ ("marketing",
     "Marketing Manager: Expertise in B2B/B2C marketing, demand generation, campaign execution, digital marketing (SEO, SEM, PPC), content strategy, and marketing analytics."),
    ("software",
     "Senior Software Engineer: Skilled in Python, Java, Go, data structures, algorithms, cloud computing (AWS/Azure/GCP), microservices architecture, Docker, Kubernetes, and SQL/NoSQL databases."),
    ("graphic_designer",
     "Graphic Designer: Proficiency in Adobe Creative Suite (Photoshop, Illustrator, InDesign), Figma, and Sketch. Experience in UI/UX design, branding, and creating visual assets for digital and print media."),
    ("scm",
     "Supply Chain Manager: Experience in logistics, inventory management, procurement, vendor relations, warehousing, and distribution. Focus on optimizing processes and reducing costs."),
    ("generic",
     "A general professional role with a focus on clear communication, quantifiable achievements, leadership, project management, and problem-solving skills.") ]

/-- `DEFAULT_JDS.get(domain)` (the looked-up domain is always present). -/
def lookupJD (domain : String) : String :=
  ((DEFAULT_JDS.find? (fun p => p.1 = domain)).map Prod.snd).getD ""

/-- `{domain: sum(1 for keyword in keywords if keyword in text_lower) ...}`:
per-domain counts of keywords occurring as substrings, in table order. -/
def domain_scores (text_lower : String) : List (String × Nat) :=
  DOMAIN_KEYWORDS.map
    (fun p => (p.1, (p.2.filter (fun kw => strContains text_lower kw)).length))

/-- One comparison step of Python's `max(..., key=...)`: a later element
replaces the current best only when strictly greater, so the first maximal
element wins ties. -/
def pyMaxStep (best y : String × Nat) : String × Nat :=
  if best.2 < y.2 then y else best

/-- `max(domain_scores, key=domain_scores.get)` over the insertion-ordered
score list. -/
def pyMaxByVal : List (String × Nat) → String × Nat
  | [] => ("", 0)
  | x :: xs => xs.foldl pyMaxStep x

/-- The default job description chosen by domain inference in
`analyze_resume`: the best-scoring domain when its count exceeds 2,
otherwise the generic profile. -/
def inferredJD (raw_text : String) : String :=
  let text_lower := pyLower raw_text
  let best := pyMaxByVal (domain_scores text_lower)
  let domain := if 2 < best.2 then best.1 else "generic"
  lookupJD domain

/-- The job description used by `analyze_resume`: Python's
`if not job_description_text` treats both `None` and the empty string as
missing and triggers domain inference. -/
def resolveJD (raw_text : String) (job_description_text : Option String) :
    String :=
  match job_description_text with
  | none => inferredJD raw_text
  | some s => if s = "" then inferredJD raw_text else s

/-- A source document, as far as the extractor observes it: a PDF is a list
of pages (abstract type `α`), a DOCX a list of paragraph texts, anything else
is unsupported. -/
inductive DocSource (α : Type)
  | pdf (pages : List α)
  | docx (paragraphs : List String)
  | unsupported

/-- The in-band sentinel `extract_text_from_pdf` returns when the OCR engine
is missing. -/
def tesseractSentinel : String := "TESSERACT_NOT_FOUND"

/-- `extract_text_from_pdf` from `src/analyzer.py`.  `getText` is the
text-layer reader (`page.get_text()`); `ocr` is the OCR engine
(`pytesseract.image_to_string` on the rendered page), `none` when Tesseract
is not installed, in which case the first OCR call raises
`TesseractNotFoundError` and the sentinel is returned. -/
def extract_text_from_pdf (α : Type) (getText : α → String)
    (ocr : Option (α → String)) (pages : List α) : String × Bool :=
  let full_text := joinAll (pages.map getText)
  if (pyStrip full_text).length < 150 then
    match pages, ocr with
    | [], _ => ("", true)
    | _ :: _, none => (tesseractSentinel, false)
    | _ :: _, some f =>
      (pyStrip (joinAll (pages.map (fun p => f p ++ "\n"))), true)
  else (pyStrip full_text, false)

/-- The all-empty SectionMap. -/
def emptySections : Sections := ⟨"", "", "", ""⟩

/-- `master_text_extractor` from `src/analyzer.py`: dispatch on the source
kind, return early (with no sections) on empty text or the OCR sentinel,
otherwise normalize and segment.  `none` for the raw text models the Python
`None` returned for unsupported extensions. -/
def master_text_extractor (α : Type) (getText : α → String)
    (ocr : Option (α → String)) (src : DocSource α) :
    Option String × Sections × Bool :=
  match src with
  | .unsupported => (none, emptySections, false)
  | .pdf pages =>
    let r := extract_text_from_pdf α getText ocr pages
    if r.1 = "" ∨ r.1 = tesseractSentinel then (some r.1, emptySections, r.2)
    else
      let normalized := normalizeText r.1
      (some normalized, parse_sections_by_iteration normalized, r.2)
  | .docx paragraphs =>
    let raw := pyStrip (joinSep "\n" paragraphs)
    if raw = "" ∨ raw = tesseractSentinel then (some raw, emptySections, false)
    else
      let normalized := normalizeText raw
      (some normalized, parse_sections_by_iteration normalized, false)

/-- `generate_ai_summary` from `src/analyzer.py`; the summarizer model is the
parameter, `none` when unavailable. -/
def generate_ai_summary (summarize : Option (String → String))
    (resume_text : String) : String :=
  match summarize with
  | none => "AI summary model is unavailable."
  | some f =>
    let cleaned_text := pyStrip (collapseNl [' '] resume_text)
    pyStrip (f ⟨cleaned_text.data.take 2048⟩)

/-- The assembled report of `analyze_resume` (the nested dict flattened to a
record with the same information). -/
structure Report where
  overall_score : Nat
  resume_grade : String
  ai_generated_summary : String
  formatting_issues : List String
  content_issues : List String
  job_fit_score : Nat
  missing_keywords : List String
  overlap_keywords : List String
  outdated_tech : List String
  personalized_recommendations : List String

/-- `analyze_resume` returns either an error dict (`{"error": msg}`) or a
report. -/
inductive AnalyzeResult
  | failure (msg : String)
  | success (r : Report)

def extractFailMsg : String :=
  "Failed to extract text. File may be corrupted or an unsupported format."

def tesseractMsg : String := "Tesseract OCR is not installed."

/-- `analyze_resume` from `src/analyzer.py`, over the abstract collaborators. -/
def analyze_resume (α : Type) (getText : α → String)
    (ocr : Option (α → String)) (nlp : Option Nlp)
    (summarize : Option (String → String)) (src : DocSource α)
    (job_description_text : Option String) : AnalyzeResult :=
  match master_text_extractor α getText ocr src with
  | (none, _, _) => .failure extractFailMsg
  | (some raw_text, sections, is_graphics_heavy) =>
    if raw_text = "" then .failure extractFailMsg
    else if raw_text = tesseractSentinel then .failure tesseractMsg
    else
      let jdText := resolveJD raw_text job_description_text
      let jd_match := match_job_description nlp raw_text jdText
      let ci := compile_issues nlp sections raw_text
      let formatting_issues :=
        if is_graphics_heavy then ci.1 ++ [graphicsHeavyMsg] else ci.1
      let content_issues := ci.2.1
      let outdated_tech := ci.2.2
      let sg := calculate_scores formatting_issues content_issues
        outdated_tech jd_match.score
      .success
        { overall_score := sg.1
          resume_grade := sg.2
          ai_generated_summary := generate_ai_summary summarize raw_text
          formatting_issues := formatting_issues
          content_issues := content_issues
          job_fit_score := jd_match.score
          missing_keywords := jd_match.missing_keywords
          overlap_keywords := jd_match.overlap_keywords
          outdated_tech := outdated_tech
          personalized_recommendations :=
            generate_personalized_recommendations jd_match.score
              jd_match.missing_keywords formatting_issues content_issues
              outdated_tech }

/-- A concrete test lemmatizer: whitespace tokens, identity lemmas, nothing
is a stopword or punctuation. -/
def testNlp : Nlp :=
  fun s => (pySplitWs s).map (fun w => ⟨w, false, false, true⟩)

/-- The raw text of the C2 scenario. -/
def c2Text : String := "Summary\nA dynamic team player.\nSkills\nPython, AWS"

/-- Work-experience fixture: ten qualifying lines (16 chars each), exactly
three containing a digit, so the quantification ratio is exactly 30%. -/
def c4Text : String :=
  "aaaaaaaaaaaaaaaa\naaaaaaaaaaaaaaaa\naaaaaaaaaaaaaaaa\naaaaaaaaaaaaaaaa\naaaaaaaaaaaaaaaa\naaaaaaaaaaaaaaaa\naaaaaaaaaaaaaaaa\naaaaaaaaaaaaaaa1\naaaaaaaaaaaaaaa2\naaaaaaaaaaaaaaa3"

/-- A SectionMap whose only non-empty section is the `c4Text` work
experience. -/
def c4Sections : Sections := ⟨"", c4Text, "", ""⟩

/-! ## Helper lemmas -/

theorem natFloorDivQ (a b : ℕ) : ⌊((a : ℚ)) / ((b : ℕ) : ℚ)⌋₊ = a / b := by
  rw [Nat.floor_div_nat, Nat.floor_natCast]

theorem roundMix (q s : ℕ) :
    round ((2 / 5 : ℚ) * (q : ℚ) + (3 / 5 : ℚ) * (s : ℚ)) =
      (((4 * q + 6 * s + 5) / 10 : ℕ) : ℤ) := by
  have hx : (2 / 5 : ℚ) * (q : ℚ) + (3 / 5 : ℚ) * (s : ℚ) + 1 / 2 =
      ((4 * q + 6 * s + 5 : ℕ) : ℚ) / ((10 : ℕ) : ℚ) := by
    push_cast
    ring
  rw [round_eq, hx, ← Int.natCast_floor_eq_floor (by positivity),
    Nat.floor_div_nat, Nat.floor_natCast]

theorem bitLenAux_spec :
    ∀ (fuel n : Nat), 1 ≤ n → n ≤ fuel →
      ∃ L, bitLenAux fuel n = L + 1 ∧ 2 ^ L ≤ n ∧ n < 2 ^ (L + 1)
  | 0, n, h1, h2 => absurd h2 (by omega)
  | fuel + 1, n, h1, _h2 => by
    have hn0 : n ≠ 0 := by omega
    rw [bitLenAux, if_neg hn0]
    by_cases hn1 : n = 1
    · subst hn1
      have h0 : bitLenAux fuel (1 / 2) = 0 := by
        cases fuel with
        | zero => rfl
        | succ f => simp [bitLenAux]
      rw [h0]
      exact ⟨0, rfl, by norm_num, by norm_num⟩
    · have hge2 : 2 ≤ n := by omega
      obtain ⟨L, hL, hlo, hhi⟩ :=
        bitLenAux_spec fuel (n / 2) (by omega) (by omega)
      rw [hL]
      refine ⟨L + 1, rfl, ?_, ?_⟩
      · have hs : 2 ^ (L + 1) = 2 * 2 ^ L := by
          rw [pow_succ]
          ring
        omega
      · have hs : 2 ^ (L + 1 + 1) = 2 * 2 ^ (L + 1) := by
          rw [pow_succ _ (L + 1)]
          ring
        omega

theorem clogAux_spec :
    ∀ (fuel acc d : Nat), 1 ≤ acc → d ≤ acc * 2 ^ fuel →
      d ≤ acc * 2 ^ (clogAux fuel acc d) ∧
      (∀ k, clogAux fuel acc d = k + 1 → acc * 2 ^ k < d)
  | 0, acc, d, _hacc, hle => by
    refine ⟨by simpa [clogAux] using hle, ?_⟩
    intro k hk
    exact absurd hk (by simp [clogAux])
  | fuel + 1, acc, d, hacc, hle => by
    by_cases hda : d ≤ acc
    · have hcl : clogAux (fuel + 1) acc d = 0 := by
        rw [clogAux, if_pos hda]
      rw [hcl]
      exact ⟨by simpa using hda, fun k hk => by omega⟩
    · have hcl : clogAux (fuel + 1) acc d = clogAux fuel (acc * 2) d + 1 := by
        rw [clogAux, if_neg hda]
      rw [hcl]
      have hle2 : d ≤ acc * 2 * 2 ^ fuel := by
        have hs : 2 ^ (fuel + 1) = 2 * 2 ^ fuel := by
          rw [pow_succ]
          ring
        calc d ≤ acc * 2 ^ (fuel + 1) := hle
        _ = acc * 2 * 2 ^ fuel := by rw [hs]; ring
      obtain ⟨h1, h2⟩ := clogAux_spec fuel (acc * 2) d (by omega) hle2
      constructor
      · have hs : acc * 2 ^ (clogAux fuel (acc * 2) d + 1) =
            acc * 2 * 2 ^ (clogAux fuel (acc * 2) d) := by
          rw [pow_succ]
          ring
        rw [hs]
        exact h1
      · intro k hk
        have hkk : k = clogAux fuel (acc * 2) d := by omega
        subst hkk
        cases hK : clogAux fuel (acc * 2) d with
        | zero =>
          simpa using Nat.lt_of_not_le hda
        | succ k2 =>
          have hk2 := h2 k2 hK
          have hs : acc * 2 ^ (k2 + 1) = acc * 2 * 2 ^ k2 := by
            rw [pow_succ]
            ring
          rw [hs]
          exact hk2

/-- Exponent bounds for `n/d ≥ 1`: `bitLen (n / d) = B + 1` with
`2^B ≤ n/d < 2^(B+1)` over ℚ. -/
theorem expBounds_ge (n d : Nat) (hd : 1 ≤ d) (hdn : d ≤ n) :
    ∃ B : ℕ, bitLen (n / d) = B + 1 ∧
      (2 : ℚ) ^ (B : ℤ) ≤ (n : ℚ) / (d : ℚ) ∧
      (n : ℚ) / (d : ℚ) < (2 : ℚ) ^ ((B : ℤ) + 1) := by
  have h1 : 1 ≤ n / d := by
    have := Nat.div_pos hdn (by omega)
    omega
  obtain ⟨L, hL, hlo, hhi⟩ := bitLenAux_spec (n / d) (n / d) h1 le_rfl
  have hd0 : (0 : ℚ) < (d : ℚ) := by exact_mod_cast (by omega : 0 < d)
  refine ⟨L, hL, ?_, ?_⟩
  · have hnat : 2 ^ L * d ≤ n := by
      have := (Nat.le_div_iff_mul_le (by omega : 0 < d)).mp hlo
      omega
    rw [show ((2 : ℚ) ^ (L : ℤ)) = ((2 ^ L : ℕ) : ℚ) by
      rw [zpow_natCast]; push_cast; ring]
    rw [le_div_iff₀ hd0]
    exact_mod_cast hnat
  · have hnat : n < d * 2 ^ (L + 1) := by
      have := (Nat.div_lt_iff_lt_mul (by omega : 0 < d)).mp hhi
      calc n < 2 ^ (L + 1) * d := this
      _ = d * 2 ^ (L + 1) := by ring
    rw [show ((2 : ℚ) ^ ((L : ℤ) + 1)) = ((2 ^ (L + 1) : ℕ) : ℚ) by
      rw [show ((L : ℤ) + 1) = ((L + 1 : ℕ) : ℤ) by push_cast; ring,
        zpow_natCast]; push_cast; ring]
    rw [div_lt_iff₀ hd0]
    calc (n : ℚ) < ((d * 2 ^ (L + 1) : ℕ) : ℚ) := by exact_mod_cast hnat
    _ = ((2 ^ (L + 1) : ℕ) : ℚ) * d := by push_cast; ring

/-- Exponent bounds for `0 < n/d < 1`: with `k = clogND n d ≥ 1`,
`2^(-k) ≤ n/d < 2^(-k+1)` over ℚ. -/
theorem expBounds_lt (n d : Nat) (hn : 1 ≤ n) (hnd : n < d) :
    1 ≤ clogND n d ∧
      (2 : ℚ) ^ (-(clogND n d : ℤ)) ≤ (n : ℚ) / (d : ℚ) ∧
      (n : ℚ) / (d : ℚ) < (2 : ℚ) ^ (-(clogND n d : ℤ) + 1) := by
  have hfuel : d ≤ n * 2 ^ d := by
    have h2 := Nat.lt_two_pow d
    have : 2 ^ d ≤ n * 2 ^ d := Nat.le_mul_of_pos_left _ (by omega)
    omega
  obtain ⟨h1, h2⟩ := clogAux_spec d n d hn hfuel
  rw [show clogAux d n d = clogND n d from rfl] at h1 h2
  have hK1 : 1 ≤ clogND n d := by
    by_contra hK0
    have h0 : clogND n d = 0 := by omega
    rw [h0] at h1
    simp at h1
    omega
  have hd0 : (0 : ℚ) < (d : ℚ) := by exact_mod_cast (by omega : 0 < d)
  have h2K : (0 : ℚ) < ((2 ^ clogND n d : ℕ) : ℚ) := by
    exact_mod_cast Nat.pos_pow_of_pos _ (by omega)
  refine ⟨hK1, ?_, ?_⟩
  · rw [show ((2 : ℚ) ^ (-(clogND n d : ℤ))) =
        1 / ((2 ^ clogND n d : ℕ) : ℚ) by
      rw [zpow_neg, zpow_natCast]; push_cast; rw [one_div]]
    rw [div_le_div_iff₀ h2K hd0]
    have : d ≤ n * 2 ^ clogND n d := h1
    calc (1 : ℚ) * d = (d : ℚ) := by ring
    _ ≤ ((n * 2 ^ clogND n d : ℕ) : ℚ) := by exact_mod_cast this
    _ = (n : ℚ) * ((2 ^ clogND n d : ℕ) : ℚ) := by push_cast; ring
  · have hstep : n * 2 ^ (clogND n d - 1) < d := h2 _ (by omega)
    have hnat : n * 2 ^ clogND n d < 2 * d := by
      have hs : 2 ^ clogND n d = 2 * 2 ^ (clogND n d - 1) := by
        rw [← pow_succ']
        congr 1
        omega
      calc n * 2 ^ clogND n d = 2 * (n * 2 ^ (clogND n d - 1)) := by
            rw [hs]; ring
      _ < 2 * d := by omega
    rw [show ((2 : ℚ) ^ (-(clogND n d : ℤ) + 1)) =
        2 / ((2 ^ clogND n d : ℕ) : ℚ) by
      rw [show (-(clogND n d : ℤ) + 1) = 1 - (clogND n d : ℤ) by ring,
        zpow_sub₀ (by norm_num : (2:ℚ) ≠ 0), zpow_one, zpow_natCast]
      push_cast
      ring]
    rw [div_lt_div_iff₀ hd0 h2K]
    calc (n : ℚ) * ((2 ^ clogND n d : ℕ) : ℚ) =
          ((n * 2 ^ clogND n d : ℕ) : ℚ) := by push_cast; ring
    _ < ((2 * d : ℕ) : ℚ) := by exact_mod_cast hnat
    _ = 2 * (d : ℚ) := by push_cast; ring

/-- Rounding to the nearest integer (ties to even) moves a non-negative
rational by at most 1/2. -/
theorem roundHalfEven_dist (N D : Nat) (hD : 1 ≤ D) :
    |((roundHalfEven N D : ℕ) : ℚ) - (N : ℚ) / (D : ℚ)| ≤ 1 / 2 := by
  have hD0 : (0 : ℚ) < (D : ℚ) := by exact_mod_cast (by omega : 0 < D)
  have hmod : (D : ℚ) * ((N / D : ℕ) : ℚ) + ((N % D : ℕ) : ℚ) = (N : ℚ) := by
    exact_mod_cast Nat.div_add_mod N D
  have hkey : (N : ℚ) / (D : ℚ) =
      ((N / D : ℕ) : ℚ) + ((N % D : ℕ) : ℚ) / (D : ℚ) := by
    field_simp
    linarith
  have hr_nonneg : (0 : ℚ) ≤ ((N % D : ℕ) : ℚ) := by positivity
  have hrdiv_nonneg : (0 : ℚ) ≤ ((N % D : ℕ) : ℚ) / (D : ℚ) :=
    div_nonneg hr_nonneg (le_of_lt hD0)
  simp only [roundHalfEven]
  split_ifs with h1 h2 h3
  · have hle : ((N % D : ℕ) : ℚ) / (D : ℚ) ≤ 1 / 2 := by
      rw [div_le_iff₀ hD0]
      have hc : ((2 * (N % D) : ℕ) : ℚ) ≤ ((D : ℕ) : ℚ) := by
        exact_mod_cast (by omega : 2 * (N % D) ≤ D)
      push_cast at hc
      linarith
    rw [hkey, abs_le]
    constructor <;> push_cast <;> linarith
  · have hge : 1 / 2 ≤ ((N % D : ℕ) : ℚ) / (D : ℚ) := by
      rw [le_div_iff₀ hD0]
      have hc : ((D : ℕ) : ℚ) ≤ ((2 * (N % D) : ℕ) : ℚ) := by
        exact_mod_cast (by omega : D ≤ 2 * (N % D))
      push_cast at hc
      linarith
    have hlt1 : ((N % D : ℕ) : ℚ) / (D : ℚ) < 1 := by
      rw [div_lt_one hD0]
      exact_mod_cast Nat.mod_lt N (by omega)
    rw [hkey, abs_le]
    constructor <;> push_cast <;> linarith
  · have heq : ((N % D : ℕ) : ℚ) / (D : ℚ) = 1 / 2 := by
      rw [div_eq_iff (ne_of_gt hD0)]
      have hc : ((2 * (N % D) : ℕ) : ℚ) = ((D : ℕ) : ℚ) := by
        exact_mod_cast (by omega : 2 * (N % D) = D)
      push_cast at hc
      linarith
    rw [hkey, abs_le]
    constructor <;> push_cast <;> linarith
  · have heq : ((N % D : ℕ) : ℚ) / (D : ℚ) = 1 / 2 := by
      rw [div_eq_iff (ne_of_gt hD0)]
      have hc : ((2 * (N % D) : ℕ) : ℚ) = ((D : ℕ) : ℚ) := by
        exact_mod_cast (by omega : 2 * (N % D) = D)
      push_cast at hc
      linarith
    rw [hkey, abs_le]
    constructor <;> push_cast <;> linarith

/-- Distance bound for one rounding step expressed on the scaled grid: if
`num/den` equals `x * 2^(-P)` then rounding it to an integer `m` puts
`m * 2^P` within `2^(P-1)` of `x`. -/
theorem scaled_dist (m : Nat) (P : ℤ) (x : ℚ) (num den : Nat)
    (hden : 1 ≤ den)
    (hfrac : (num : ℚ) / (den : ℚ) = x * (2 : ℚ) ^ (-P))
    (hm : m = roundHalfEven num den) :
    |scaledVal m P - x| ≤ (2 : ℚ) ^ (P - 1) := by
  have hdist := roundHalfEven_dist num den hden
  rw [← hm, hfrac] at hdist
  have h2P : (0 : ℚ) < (2 : ℚ) ^ P := zpow_pos (by norm_num) P
  have hcancel : (2 : ℚ) ^ P * (2 : ℚ) ^ (-P) = 1 := by
    rw [← zpow_add₀ (by norm_num : (2 : ℚ) ≠ 0)]
    norm_num
  have hveq : scaledVal m P - x =
      (2 : ℚ) ^ P * ((m : ℚ) - x * (2 : ℚ) ^ (-P)) := by
    unfold scaledVal
    linear_combination x * hcancel
  rw [hveq, abs_mul, abs_of_pos h2P]
  have hpow : (2 : ℚ) ^ (P - 1) = (2 : ℚ) ^ P * (1 / 2) := by
    rw [show P - 1 = P + (-1) from by ring,
      zpow_add₀ (by norm_num : (2 : ℚ) ≠ 0)]
    norm_num
  rw [hpow]
  exact mul_le_mul_of_nonneg_left hdist (le_of_lt h2P)

/-- `flRound` on `n/d` with binade exponent `e ≥ -1022` (normal range) lands
within `2^(e-53)` of `n/d`. -/
theorem flRound_dist (n d : Nat) (e : ℤ) (hn : 1 ≤ n) (hd : 1 ≤ d)
    (hee : (if d ≤ n then (bitLen (n / d) : ℤ) - 1 else -(clogND n d : ℤ)) = e)
    (hge : -(1022 : ℤ) ≤ e) :
    |scaledVal (flRound n d).1 (flRound n d).2 - (n : ℚ) / (d : ℚ)| ≤
      (2 : ℚ) ^ (e - 53) := by
  have hne : ¬(n = 0 ∨ d = 0) := by omega
  have hp : max (e - 52) (-1074) = e - 52 := max_eq_left (by omega)
  have hflr : flRound n d =
      ((if 0 ≤ e - 52 then roundHalfEven n (d * 2 ^ (e - 52).toNat)
        else roundHalfEven (n * 2 ^ (-(e - 52)).toNat) d), e - 52) := by
    simp only [flRound]
    rw [if_neg hne, hee, hp]
  rw [hflr]
  dsimp only
  have hd0 : (0 : ℚ) < (d : ℚ) := by exact_mod_cast (by omega : 0 < d)
  by_cases hs : 0 ≤ e - 52
  · rw [if_pos hs]
    have hden : 1 ≤ d * 2 ^ (e - 52).toNat := by
      have := pow_pos (by omega : 0 < 2) (e - 52).toNat
      exact Nat.one_le_iff_ne_zero.mpr (by positivity)
    have h2k0 : ((2 : ℚ) ^ (e - 52).toNat) ≠ 0 := by positivity
    have hfrac : ((n : ℕ) : ℚ) / ((d * 2 ^ (e - 52).toNat : ℕ) : ℚ) =
        ((n : ℚ) / (d : ℚ)) * (2 : ℚ) ^ (-(e - 52)) := by
      have h2 : (2 : ℚ) ^ (-(e - 52)) = ((2 : ℚ) ^ (e - 52).toNat)⁻¹ := by
        rw [zpow_neg]
        congr 1
        rw [← zpow_natCast (2 : ℚ) (e - 52).toNat, Int.toNat_of_nonneg hs]
      rw [h2]
      push_cast
      field_simp
    have hb := scaled_dist _ (e - 52) ((n : ℚ) / (d : ℚ)) n
      (d * 2 ^ (e - 52).toNat) hden hfrac rfl
    rwa [show e - 52 - 1 = e - 53 from by ring] at hb
  · rw [if_neg hs]
    have hfrac : ((n * 2 ^ (-(e - 52)).toNat : ℕ) : ℚ) / ((d : ℕ) : ℚ) =
        ((n : ℚ) / (d : ℚ)) * (2 : ℚ) ^ (-(e - 52)) := by
      have h2 : (2 : ℚ) ^ (-(e - 52)) = (2 : ℚ) ^ ((-(e - 52)).toNat) := by
        rw [← zpow_natCast (2 : ℚ) (-(e - 52)).toNat,
          Int.toNat_of_nonneg (by omega)]
      rw [h2]
      push_cast
      field_simp
    have hb := scaled_dist _ (e - 52) ((n : ℚ) / (d : ℚ))
      (n * 2 ^ (-(e - 52)).toNat) d hd hfrac rfl
    rwa [show e - 52 - 1 = e - 53 from by ring] at hb

/-- Relative error of one binary64 rounding in the normal range: the result
is within `(n/d) * 2^(-53)` of `n/d`. -/
theorem flRound_err (n d : Nat) (hn : 1 ≤ n) (hd : 1 ≤ d)
    (hlow : (2 : ℚ) ^ (-(1022 : ℤ)) ≤ (n : ℚ) / (d : ℚ)) :
    |scaledVal (flRound n d).1 (flRound n d).2 - (n : ℚ) / (d : ℚ)| ≤
      ((n : ℚ) / (d : ℚ)) * (2 : ℚ) ^ (-(53 : ℤ)) := by
  have h2ne : (2 : ℚ) ≠ 0 := by norm_num
  rcases le_or_lt d n with hdn | hnd
  · obtain ⟨B, hB, hlo, hhi⟩ := expBounds_ge n d hd hdn
    have hee : (if d ≤ n then (bitLen (n / d) : ℤ) - 1
        else -(clogND n d : ℤ)) = (B : ℤ) := by
      rw [if_pos hdn, hB]
      push_cast
      ring
    have hdist := flRound_dist n d (B : ℤ) hn hd hee (by omega)
    calc |scaledVal (flRound n d).1 (flRound n d).2 - (n : ℚ) / (d : ℚ)| ≤
        (2 : ℚ) ^ ((B : ℤ) - 53) := hdist
    _ = (2 : ℚ) ^ (B : ℤ) * (2 : ℚ) ^ (-(53 : ℤ)) := by
        rw [← zpow_add₀ h2ne]
        congr 1
    _ ≤ ((n : ℚ) / (d : ℚ)) * (2 : ℚ) ^ (-(53 : ℤ)) :=
        mul_le_mul_of_nonneg_right hlo (le_of_lt (zpow_pos (by norm_num) _))
  · obtain ⟨hK1, hlo, hhi⟩ := expBounds_lt n d hn hnd
    have hee : (if d ≤ n then (bitLen (n / d) : ℤ) - 1
        else -(clogND n d : ℤ)) = -(clogND n d : ℤ) := by
      rw [if_neg (by omega)]
    have hlt : (2 : ℚ) ^ (-(1022 : ℤ)) < (2 : ℚ) ^ (-(clogND n d : ℤ) + 1) :=
      lt_of_le_of_lt hlow hhi
    have hKle : -(1022 : ℤ) < -(clogND n d : ℤ) + 1 :=
      (zpow_lt_zpow_iff_right₀ (by norm_num : (1 : ℚ) < 2)).mp hlt
    have hdist := flRound_dist n d (-(clogND n d : ℤ)) hn hd hee (by omega)
    calc |scaledVal (flRound n d).1 (flRound n d).2 - (n : ℚ) / (d : ℚ)| ≤
        (2 : ℚ) ^ (-(clogND n d : ℤ) - 53) := hdist
    _ = (2 : ℚ) ^ (-(clogND n d : ℤ)) * (2 : ℚ) ^ (-(53 : ℤ)) := by
        rw [← zpow_add₀ h2ne]
        congr 1
    _ ≤ ((n : ℚ) / (d : ℚ)) * (2 : ℚ) ^ (-(53 : ℤ)) :=
        mul_le_mul_of_nonneg_right hlo (le_of_lt (zpow_pos (by norm_num) _))

theorem scaledToFrac_val (m : Nat) (p : ℤ) :
    ((scaledToFrac m p).1 : ℚ) / ((scaledToFrac m p).2 : ℚ) = scaledVal m p := by
  unfold scaledToFrac scaledVal
  split_ifs with h
  · dsimp only
    push_cast
    rw [div_one, ← zpow_natCast (2 : ℚ) p.toNat, Int.toNat_of_nonneg h]
  · dsimp only
    have h2 : (2 : ℚ) ^ p = ((2 : ℚ) ^ ((-p).toNat))⁻¹ := by
      rw [← zpow_natCast (2 : ℚ) (-p).toNat,
        Int.toNat_of_nonneg (by omega : (0 : ℤ) ≤ -p), ← zpow_neg, neg_neg]
    rw [h2]
    push_cast
    rw [div_eq_mul_inv]

theorem truncScaled_eq_floor (m : Nat) (p : ℤ) :
    truncScaled m p = ⌊scaledVal m p⌋₊ := by
  unfold truncScaled scaledVal
  split_ifs with h
  · rw [show ((m : ℚ)) * (2 : ℚ) ^ p = ((m * 2 ^ p.toNat : ℕ) : ℚ) by
      push_cast
      rw [← zpow_natCast (2 : ℚ) p.toNat, Int.toNat_of_nonneg h]]
    rw [Nat.floor_natCast]
  · have h2 : (m : ℚ) * (2 : ℚ) ^ p = (m : ℚ) / ((2 ^ (-p).toNat : ℕ) : ℚ) := by
      rw [div_eq_mul_inv]
      congr 1
      push_cast
      rw [← zpow_natCast (2 : ℚ) (-p).toNat,
        Int.toNat_of_nonneg (by omega : (0 : ℤ) ≤ -p), ← zpow_neg, neg_neg]
    rw [h2, natFloorDivQ]

theorem scaledVal_nonneg (m : Nat) (p : ℤ) : 0 ≤ scaledVal m p := by
  unfold scaledVal
  positivity

theorem scaledVal_pos_mantissa (m : Nat) (p : ℤ) (h : 0 < scaledVal m p) :
    1 ≤ m := by
  by_contra hm
  have hm0 : m = 0 := by omega
  rw [hm0] at h
  unfold scaledVal at h
  simp at h

/-- Error composition for the two binary64 roundings, over abstract values. -/
theorem trunc_near (x V1 V2 eps : ℚ) (hxpos : 0 < x) (hxle1 : x ≤ 1)
    (heps : 0 < eps) (heps_small : eps ≤ 1 / 2)
    (h1 : |V1 - x| ≤ x * eps) (h2 : |V2 - 100 * V1| ≤ 100 * V1 * eps) :
    |V2 - 100 * x| ≤ 250 * eps := by
  obtain ⟨h1a, h1b⟩ := abs_le.mp h1
  obtain ⟨h2a, h2b⟩ := abs_le.mp h2
  have hxeps : x * eps ≤ eps := by nlinarith
  have hV1le : V1 ≤ 3 / 2 := by nlinarith
  have hV1eps : V1 * eps ≤ 3 / 2 * eps := by nlinarith
  rw [abs_le]
  constructor <;> nlinarith

/-- A value within relative error `eps ≤ 1/2` of a positive `x` stays above
`x/2`; scaled by 100 it stays above anything below `x`. -/
theorem w_low (x V1 eps c : ℚ) (hxpos : 0 < x) (heps : 0 < eps)
    (heps_small : eps ≤ 1 / 2) (h1 : |V1 - x| ≤ x * eps) (hc : c ≤ x) :
    c ≤ 100 * V1 := by
  obtain ⟨h1a, _⟩ := abs_le.mp h1
  nlinarith [mul_le_mul_of_nonneg_left heps_small (le_of_lt hxpos)]

/-- Two non-negative rationals within distance 1 have `Nat.floor`s within 1. -/
theorem floor_within_one (y z : ℚ) (hy : 0 ≤ y) (hz : 0 ≤ z)
    (h : |z - y| ≤ 1) : ⌊z⌋₊ ≤ ⌊y⌋₊ + 1 ∧ ⌊y⌋₊ ≤ ⌊z⌋₊ + 1 := by
  obtain ⟨ha, hb⟩ := abs_le.mp h
  constructor
  · calc ⌊z⌋₊ ≤ ⌊y + 1⌋₊ := Nat.floor_mono (by linarith)
    _ = ⌊y⌋₊ + 1 := Nat.floor_add_one hy
  · calc ⌊y⌋₊ ≤ ⌊z + 1⌋₊ := Nat.floor_mono (by linarith)
    _ = ⌊z⌋₊ + 1 := Nat.floor_add_one hz

/-- The binary64 evaluation of `int((o/j)*100)` differs from the exact
`⌊100*o/j⌋` by at most 1, for any denominator up to `2^64` (far beyond any
realizable lemma-set size). -/
theorem pyDivMul100_bound (o j : Nat) (hj : 1 ≤ j) (hoj : o ≤ j)
    (hjs : j ≤ 2 ^ 64) :
    pyDivMul100Trunc o j ≤ ⌊100 * (o : ℚ) / (j : ℚ)⌋₊ + 1 ∧
    ⌊100 * (o : ℚ) / (j : ℚ)⌋₊ ≤ pyDivMul100Trunc o j + 1 := by
  have hj0 : (0 : ℚ) < (j : ℚ) := by exact_mod_cast (by omega : 0 < j)
  rcases Nat.eq_zero_or_pos o with ho | ho
  · subst ho
    have hz : pyDivMul100Trunc 0 j = 0 := by
      simp [pyDivMul100Trunc, flRound, scaledToFrac, truncScaled]
    rw [hz]
    constructor <;> simp
  · have hxpos : (0 : ℚ) < (o : ℚ) / (j : ℚ) :=
      div_pos (by exact_mod_cast ho) hj0
    have hxle1 : (o : ℚ) / (j : ℚ) ≤ 1 := by
      rw [div_le_one hj0]
      exact_mod_cast hoj
    have hxlow64 : (2 : ℚ) ^ (-(64 : ℤ)) ≤ (o : ℚ) / (j : ℚ) := by
      have h1j : (1 : ℚ) / (j : ℚ) ≤ (o : ℚ) / (j : ℚ) := by
        gcongr
        exact_mod_cast ho
      have h2j : (2 : ℚ) ^ (-(64 : ℤ)) ≤ 1 / (j : ℚ) := by
        have hj64 : (j : ℚ) ≤ ((2 ^ 64 : ℕ) : ℚ) := by exact_mod_cast hjs
        have h2 : (2 : ℚ) ^ (-(64 : ℤ)) = 1 / ((2 ^ 64 : ℕ) : ℚ) := by
          rw [zpow_neg, show ((64 : ℤ)) = ((64 : ℕ) : ℤ) from rfl,
            zpow_natCast, one_div]
          push_cast
          norm_num
        rw [h2]
        exact one_div_le_one_div_of_le hj0 hj64
      exact le_trans h2j h1j
    have hxlow : (2 : ℚ) ^ (-(1022 : ℤ)) ≤ (o : ℚ) / (j : ℚ) :=
      le_trans (zpow_le_zpow_right₀ (by norm_num : (1 : ℚ) ≤ 2) (by omega))
        hxlow64
    have heps : (0 : ℚ) < (2 : ℚ) ^ (-(53 : ℤ)) := zpow_pos (by norm_num) _
    have heps_small : (2 : ℚ) ^ (-(53 : ℤ)) ≤ 1 / 2 := by
      calc (2 : ℚ) ^ (-(53 : ℤ)) ≤ (2 : ℚ) ^ (-(1 : ℤ)) :=
        zpow_le_zpow_right₀ (by norm_num) (by omega)
      _ = 1 / 2 := by norm_num
    have hnum : 250 * (2 : ℚ) ^ (-(53 : ℤ)) ≤ 1 := by
      have h53 : (2 : ℚ) ^ (-(53 : ℤ)) = 1 / ((2 ^ 53 : ℕ) : ℚ) := by
        rw [zpow_neg, show ((53 : ℤ)) = ((53 : ℕ) : ℤ) from rfl,
          zpow_natCast, one_div]
        push_cast
        norm_num
      rw [h53, mul_one_div, div_le_one (by positivity)]
      norm_num
    -- first rounding
    have herr1 := flRound_err o j ho hj hxlow
    have hhalf := w_low ((o : ℚ) / (j : ℚ))
      (scaledVal (flRound o j).1 (flRound o j).2) ((2 : ℚ) ^ (-(53 : ℤ)))
      ((2 : ℚ) ^ (-(1022 : ℤ))) hxpos heps heps_small herr1 hxlow
    have hV1pos : 0 < scaledVal (flRound o j).1 (flRound o j).2 := by
      have h100 : (0 : ℚ) < (2 : ℚ) ^ (-(1022 : ℤ)) := zpow_pos (by norm_num) _
      linarith
    have hm1 : 1 ≤ (flRound o j).1 := scaledVal_pos_mantissa _ _ hV1pos
    -- second rounding operands
    have hfrac2 : ((scaledToFrac (100 * (flRound o j).1) (flRound o j).2).1 : ℚ) /
        ((scaledToFrac (100 * (flRound o j).1) (flRound o j).2).2 : ℚ) =
        100 * scaledVal (flRound o j).1 (flRound o j).2 := by
      rw [scaledToFrac_val]
      unfold scaledVal
      push_cast
      ring
    have hd2 : 1 ≤ (scaledToFrac (100 * (flRound o j).1) (flRound o j).2).2 := by
      unfold scaledToFrac
      split_ifs <;> dsimp only
      · omega
      · exact Nat.one_le_iff_ne_zero.mpr (by positivity)
    have hn2 : 1 ≤ (scaledToFrac (100 * (flRound o j).1) (flRound o j).2).1 := by
      unfold scaledToFrac
      split_ifs <;> dsimp only
      · have h2p := pow_pos (by omega : (0 : ℕ) < 2) (flRound o j).2.toNat
        have h100 : 0 < 100 * (flRound o j).1 := by omega
        exact Nat.one_le_iff_ne_zero.mpr (by positivity)
      · omega
    have hw_low2 : (2 : ℚ) ^ (-(1022 : ℤ)) ≤
        ((scaledToFrac (100 * (flRound o j).1) (flRound o j).2).1 : ℚ) /
        ((scaledToFrac (100 * (flRound o j).1) (flRound o j).2).2 : ℚ) := by
      rw [hfrac2]
      exact hhalf
    have herr2 := flRound_err _ _ hn2 hd2 hw_low2
    rw [hfrac2] at herr2
    have hclose := trunc_near ((o : ℚ) / (j : ℚ))
      (scaledVal (flRound o j).1 (flRound o j).2)
      (scaledVal
        (flRound (scaledToFrac (100 * (flRound o j).1) (flRound o j).2).1
          (scaledToFrac (100 * (flRound o j).1) (flRound o j).2).2).1
        (flRound (scaledToFrac (100 * (flRound o j).1) (flRound o j).2).1
          (scaledToFrac (100 * (flRound o j).1) (flRound o j).2).2).2)
      ((2 : ℚ) ^ (-(53 : ℤ))) hxpos hxle1 heps heps_small herr1 herr2
    have hclose1 : |scaledVal
        (flRound (scaledToFrac (100 * (flRound o j).1) (flRound o j).2).1
          (scaledToFrac (100 * (flRound o j).1) (flRound o j).2).2).1
        (flRound (scaledToFrac (100 * (flRound o j).1) (flRound o j).2).1
          (scaledToFrac (100 * (flRound o j).1) (flRound o j).2).2).2
        - 100 * ((o : ℚ) / (j : ℚ))| ≤ 1 := le_trans hclose hnum
    have hfw := floor_within_one (100 * ((o : ℚ) / (j : ℚ)))
      (scaledVal
        (flRound (scaledToFrac (100 * (flRound o j).1) (flRound o j).2).1
          (scaledToFrac (100 * (flRound o j).1) (flRound o j).2).2).1
        (flRound (scaledToFrac (100 * (flRound o j).1) (flRound o j).2).1
          (scaledToFrac (100 * (flRound o j).1) (flRound o j).2).2).2)
      (by positivity) (scaledVal_nonneg _ _) hclose1
    have htr : pyDivMul100Trunc o j = ⌊scaledVal
        (flRound (scaledToFrac (100 * (flRound o j).1) (flRound o j).2).1
          (scaledToFrac (100 * (flRound o j).1) (flRound o j).2).2).1
        (flRound (scaledToFrac (100 * (flRound o j).1) (flRound o j).2).1
          (scaledToFrac (100 * (flRound o j).1) (flRound o j).2).2).2⌋₊ :=
      truncScaled_eq_floor _ _
    have hgoalx : 100 * (o : ℚ) / (j : ℚ) = 100 * ((o : ℚ) / (j : ℚ)) := by
      ring
    rw [htr, hgoalx]
    exact hfw

theorem stringHeadNe {a b : String} (h : a.data.head? ≠ b.data.head?) :
    a ≠ b :=
  fun he => h (he ▸ rfl)

theorem summaryIssues_head (t m : String) (hm : m ∈ summaryIssues t) :
    m.data.head? = some 'P' := by
  unfold summaryIssues at hm
  split_ifs at hm <;>
    simp only [List.mem_append, List.mem_cons, List.not_mem_nil, or_false,
      false_or] at hm
  all_goals first
    | exact hm.elim
    | (subst hm; rfl)
    | (rcases hm with rfl | rfl <;> rfl)

theorem educationIssues_head (t m : String) (hm : m ∈ educationIssues t) :
    m.data.head? = some 'E' ∨ m.data.head? = some 'A' := by
  unfold educationIssues at hm
  split_ifs at hm <;>
    simp only [List.mem_append, List.mem_cons, List.not_mem_nil, or_false,
      false_or] at hm
  all_goals first
    | exact hm.elim
    | (subst hm; first | exact Or.inl rfl | exact Or.inr rfl)
    | (rcases hm with rfl | rfl
       · exact Or.inl rfl
       · exact Or.inl rfl)

theorem quantMsg_not_mem_summaryIssues (t : String) :
    quantMsg ∉ summaryIssues t := by
  intro hm
  have h := summaryIssues_head t quantMsg hm
  exact absurd h (by decide)

theorem quantMsg_not_mem_educationIssues (t : String) :
    quantMsg ∉ educationIssues t := by
  intro hm
  rcases educationIssues_head t quantMsg hm with h | h <;>
    exact absurd h (by decide)

theorem foldl_parseStep_none :
    ∀ (lines : List String), (∀ l ∈ lines, headingKey l = none) →
      ∀ acc : SecAcc, lines.foldl parseStep (none, acc) = (none, acc)
  | [], _, _ => rfl
  | x :: xs, h, acc => by
    have hx : headingKey x = none := h x (List.mem_cons_self x xs)
    have hstep : parseStep (none, acc) x = (none, acc) := by
      simp [parseStep, hx]
    rw [List.foldl_cons, hstep]
    exact foldl_parseStep_none xs
      (fun l hl => h l (List.mem_cons_of_mem x hl)) acc

theorem pyMaxFold_first :
    ∀ (xs : List (String × Nat)) (x : String × Nat),
      ∃ pre post,
        x :: xs = pre ++ (xs.foldl pyMaxStep x) :: post ∧
        (∀ p ∈ pre, p.2 < (xs.foldl pyMaxStep x).2) ∧
        (∀ q ∈ post, q.2 ≤ (xs.foldl pyMaxStep x).2)
  | [], x => ⟨[], [], rfl, by simp, by simp⟩
  | y :: ys, x => by
    by_cases h : x.2 < y.2
    · have hstep : (y :: ys).foldl pyMaxStep x = ys.foldl pyMaxStep y := by
        simp [List.foldl_cons, pyMaxStep, h]
      rw [hstep]
      obtain ⟨pre, post, heq, hpre, hpost⟩ := pyMaxFold_first ys y
      have hyle : y.2 ≤ (ys.foldl pyMaxStep y).2 := by
        cases pre with
        | nil =>
          have h2 : y = ys.foldl pyMaxStep y := by
            simpa using congrArg (fun l => l.head?) heq
          exact h2 ▸ le_refl _
        | cons a pre2 =>
          have h2 : y = a := by
            simpa using congrArg (fun l => l.head?) heq
          exact le_of_lt (h2 ▸ hpre a (List.mem_cons_self a pre2))
      refine ⟨x :: pre, post, ?_, ?_, hpost⟩
      · simpa using congrArg (fun l => x :: l) heq
      · intro p hp
        rcases List.mem_cons.mp hp with rfl | hp2
        · exact lt_of_lt_of_le h hyle
        · exact hpre p hp2
    · have hstep : (y :: ys).foldl pyMaxStep x = ys.foldl pyMaxStep x := by
        simp [List.foldl_cons, pyMaxStep, h]
      rw [hstep]
      obtain ⟨pre, post, heq, hpre, hpost⟩ := pyMaxFold_first ys x
      cases pre with
      | nil =>
        have hx2 : x = ys.foldl pyMaxStep x := by
          simpa using congrArg (fun l => l.head?) heq
        have hys : ys = post := by
          simpa using congrArg List.tail heq
        refine ⟨[], y :: post, ?_, by simp, ?_⟩
        · simp only [List.nil_append]
          rw [← hx2, ← hys]
        · intro q hq
          rcases List.mem_cons.mp hq with rfl | hq2
          · exact hx2 ▸ le_of_not_lt h
          · exact hpost q hq2
      | cons a pre2 =>
        have hxa : x = a := by
          simpa using congrArg (fun l => l.head?) heq
        have hys : ys = pre2 ++ (ys.foldl pyMaxStep x) :: post := by
          simpa using congrArg List.tail heq
        refine ⟨x :: y :: pre2, post, ?_, ?_, hpost⟩
        · rw [show (x :: y :: pre2) ++ (ys.foldl pyMaxStep x) :: post =
              x :: y :: (pre2 ++ (ys.foldl pyMaxStep x) :: post) from rfl,
            ← hys]
        · intro p hp
          have hxr : x.2 < (ys.foldl pyMaxStep x).2 :=
            hxa ▸ hpre a (List.mem_cons_self a pre2)
          rcases List.mem_cons.mp hp with rfl | hp2
          · exact hxr
          · rcases List.mem_cons.mp hp2 with rfl | hp3
            · exact lt_of_le_of_lt (le_of_not_lt h) hxr
            · exact hpre p (List.mem_cons_of_mem a hp3)

/-! ## Claim theorems -/

/-- C1 (amended): with the lemmatizer available and a non-empty
job-description unique-lemma set, `match_job_description` returns as score the
binary64 evaluation of `int((|overlap| / |jdLemmas|) * 100)` — two IEEE-754
round-to-nearest-ties-to-even roundings followed by truncation — which always
lies within 1 of the exact `⌊100 * |overlap| / |jdLemmas|⌋` (for lemma sets of
size up to `2^64`), and can fall strictly below it (see the counterexample's
29/100 instance).  The original claim said `round`; Python's `int(...)`
truncates the binary64 product. -/
theorem C1_match_score_float (f : Nlp)
    (resume_text job_description_text : String)
    (hj : lemmaList f (pyLower job_description_text) ≠ [])
    (hsz : (lemmaList f (pyLower job_description_text)).length ≤ 2 ^ 64) :
    (match_job_description (some f) resume_text job_description_text).score =
      pyDivMul100Trunc
        ((lemmaList f (pyLower resume_text)).filter
          (fun x => x ∈ lemmaList f (pyLower job_description_text))).length
        (lemmaList f (pyLower job_description_text)).length ∧
    (match_job_description (some f) resume_text job_description_text).score ≤
      ⌊100 * ((((lemmaList f (pyLower resume_text)).filter
            (fun x => x ∈ lemmaList f (pyLower job_description_text))).length
          : ℚ)) /
        (((lemmaList f (pyLower job_description_text)).length : ℕ) : ℚ)⌋₊ + 1 ∧
    ⌊100 * ((((lemmaList f (pyLower resume_text)).filter
          (fun x => x ∈ lemmaList f (pyLower job_description_text))).length
        : ℚ)) /
      (((lemmaList f (pyLower job_description_text)).length : ℕ) : ℚ)⌋₊ ≤
      (match_job_description (some f) resume_text job_description_text).score
        + 1 := by
  have hscore :
      (match_job_description (some f) resume_text job_description_text).score =
      pyDivMul100Trunc
        ((lemmaList f (pyLower resume_text)).filter
          (fun x => x ∈ lemmaList f (pyLower job_description_text))).length
        (lemmaList f (pyLower job_description_text)).length := by
    simp only [match_job_description]
    rw [if_neg hj]
  have hnodup : ((lemmaList f (pyLower resume_text)).filter
      (fun x => x ∈ lemmaList f (pyLower job_description_text))).Nodup := by
    unfold lemmaList
    exact (List.nodup_dedup _).filter _
  have hsub : ((lemmaList f (pyLower resume_text)).filter
      (fun x => x ∈ lemmaList f (pyLower job_description_text))) ⊆
      lemmaList f (pyLower job_description_text) := by
    intro x hx
    have hm := List.mem_filter.mp hx
    exact of_decide_eq_true hm.2
  have hle : ((lemmaList f (pyLower resume_text)).filter
      (fun x => x ∈ lemmaList f (pyLower job_description_text))).length ≤
      (lemmaList f (pyLower job_description_text)).length :=
    (List.subperm_of_subset hnodup hsub).length_le
  have hj1 : 1 ≤ (lemmaList f (pyLower job_description_text)).length := by
    have hpos := List.length_pos.mpr hj
    omega
  have hb := pyDivMul100_bound
    ((lemmaList f (pyLower resume_text)).filter
      (fun x => x ∈ lemmaList f (pyLower job_description_text))).length
    (lemmaList f (pyLower job_description_text)).length hj1 hle hsz
  refine ⟨hscore, ?_, ?_⟩
  · rw [hscore]
    exact hb.1
  · rw [hscore]
    exact hb.2

/-- C1 witness: for resume "alpha beta" and job description
"alpha beta gamma" under the whitespace identity lemmatizer, the overlap has
2 lemmas of the job description's 3, the score is the binary64 evaluation of
`int((2/3)*100)`, and it lies within 1 of `⌊200/3⌋ = 66`. -/
theorem C1_witness :
    (match_job_description (some testNlp) "alpha beta" "alpha beta gamma").score
        = pyDivMul100Trunc 2 3 ∧
    (match_job_description (some testNlp) "alpha beta" "alpha beta gamma").score
        ≤ ⌊100 * ((2 : ℕ) : ℚ) / (((3 : ℕ) : ℕ) : ℚ)⌋₊ + 1 ∧
    ⌊100 * ((2 : ℕ) : ℚ) / (((3 : ℕ) : ℕ) : ℚ)⌋₊ ≤
      (match_job_description (some testNlp) "alpha beta" "alpha beta gamma").score
        + 1 := by
  have h2 : ((lemmaList testNlp (pyLower "alpha beta")).filter
      (fun x => x ∈ lemmaList testNlp (pyLower "alpha beta gamma"))).length
      = 2 := by decide
  have h3 : (lemmaList testNlp (pyLower "alpha beta gamma")).length = 3 := by
    decide
  have h := C1_match_score_float testNlp "alpha beta" "alpha beta gamma"
    (by decide) (by decide)
  rw [h2, h3] at h
  exact h

/-- C1 counterexample: for resume "alpha beta" and job description
"alpha beta gamma" under a whitespace identity lemmatizer, the overlap has 2
lemmas and the job description 3, the returned score is 66, while
round(100 * 2 / 3) = 67 — so the score is not the rounded percentage.
Moreover the binary64 evaluation is not even the exact floor: for overlap 29
of 100 lemmas it yields 28 (0.29 * 100 evaluates to 28.999999999999996),
while ⌊100 * 29 / 100⌋ = 29. -/
theorem C1_cex :
    (match_job_description (some testNlp) "alpha beta" "alpha beta gamma").score
        = 66 ∧
    (match_job_description (some testNlp) "alpha beta"
        "alpha beta gamma").overlap_keywords.length = 2 ∧
    (match_job_description (some testNlp) "alpha beta"
        "alpha beta gamma").missing_keywords.length = 1 ∧
    round ((100 * (2 : ℚ)) / 3) = 67 ∧
    pyDivMul100Trunc 29 100 = 28 ∧
    ⌊100 * (29 : ℚ) / 100⌋₊ = 29 := by
  refine ⟨by decide, ?_, ?_, ?_, by decide, ?_⟩
  · show (List.insertionSort _ _).length = 2
    rw [List.length_insertionSort]
    decide
  · show (List.insertionSort _ _).length = 1
    rw [List.length_insertionSort]
    decide
  · have h : (100 * (2 : ℚ)) / 3 + 1 / 2 = ((403 : ℕ) : ℚ) / ((6 : ℕ) : ℚ) := by
      norm_num
    rw [round_eq, h, ← Int.natCast_floor_eq_floor (by positivity),
      Nat.floor_div_nat, Nat.floor_natCast]
    norm_num
  · have h : 100 * (29 : ℚ) / 100 = ((29 : ℕ) : ℚ) := by norm_num
    rw [h, Nat.floor_natCast]

/-- C2 counterexample: on the claimed raw text, no content issue produced by
the issue compiler mentions "team player" at all — the buzzword "team player"
is not reported (buzzword detection intersects the buzzword set with the
whitespace-split tokens of the summary, so multi-word buzzwords can never
match). -/
theorem C2_cex :
    ((compile_issues none (parse_sections_by_iteration c2Text) c2Text).2.1.any
      (fun i => strContains i "team player")) = false := by
  decide

/-- C2 (amended): for the raw text
"Summary\nA dynamic team player.\nSkills\nPython, AWS", segmentation yields
profile_summary = "A dynamic team player." and skills = "Python, AWS"; the
issue compiler's content issues report the buzzword "dynamic" (and only it:
"team player" cannot match, see the counterexample); and the missing
work_experience (formatting) and missing education (content) issues are both
flagged.  The result does not depend on lemmatizer availability. -/
theorem C2_amended_scenario (nlp : Option Nlp) :
    (parse_sections_by_iteration c2Text).profile_summary =
        "A dynamic team player." ∧
    (parse_sections_by_iteration c2Text).skills = "Python, AWS" ∧
    foundBuzzwords (parse_sections_by_iteration c2Text).profile_summary =
        ["dynamic"] ∧
    buzzMsg ["dynamic"] ∈
      (compile_issues nlp (parse_sections_by_iteration c2Text) c2Text).2.1 ∧
    workExpMissingMsg ∈
      (compile_issues nlp (parse_sections_by_iteration c2Text) c2Text).1 ∧
    eduNotFoundMsg ∈
      (compile_issues nlp (parse_sections_by_iteration c2Text) c2Text).2.1 := by
  refine ⟨by decide, by decide, by decide, ?_, ?_, ?_⟩
  · show buzzMsg ["dynamic"] ∈
      summaryIssues (parse_sections_by_iteration c2Text).profile_summary ++
        educationIssues (parse_sections_by_iteration c2Text).education ++
        expIssues (parse_sections_by_iteration c2Text).work_experience
    decide
  · show workExpMissingMsg ∈
      formattingIssuesOf (parse_sections_by_iteration c2Text)
    decide
  · show eduNotFoundMsg ∈
      summaryIssues (parse_sections_by_iteration c2Text).profile_summary ++
        educationIssues (parse_sections_by_iteration c2Text).education ++
        expIssues (parse_sections_by_iteration c2Text).work_experience
    decide

/-- C3: `calculate_scores` is a pure function of its four arguments; for any
issue lists, outdated-tech list and jdMatchScore in [0,100] it returns
`finalScore = round(0.4 * max(0, 100 - 10*(|formattingIssues|+|contentIssues|)
- 5*|outdatedTech|) + 0.6 * jdMatchScore)`, which lies in [0,100]; the grade
is chosen by the first matching threshold evaluated highest-first
(≥80 → A, ≥70 → B, ≥60 → C, ≥40 → D, else F), and is monotonic
non-decreasing in the final score. -/
theorem C3_calculate_scores (formatting_issues content_issues outdated_tech :
      List String) (jd_match_score : Nat) (hjd : jd_match_score ≤ 100) :
    (calculate_scores formatting_issues content_issues outdated_tech
        jd_match_score).1 ≤ 100 ∧
    ((calculate_scores formatting_issues content_issues outdated_tech
        jd_match_score).1 : ℤ) =
      round ((2 / 5 : ℚ) *
          (((max 0 (100 -
            10 * ((formatting_issues.length + content_issues.length : ℕ) : ℤ) -
            5 * (outdated_tech.length : ℤ))).toNat : ℕ) : ℚ) +
        (3 / 5 : ℚ) * (jd_match_score : ℚ)) ∧
    (calculate_scores formatting_issues content_issues outdated_tech
        jd_match_score).2 =
      grade_of (calculate_scores formatting_issues content_issues outdated_tech
        jd_match_score).1 ∧
    (∀ n : ℕ,
      (80 ≤ n → grade_of n = "A") ∧
      (70 ≤ n → n < 80 → grade_of n = "B") ∧
      (60 ≤ n → n < 70 → grade_of n = "C") ∧
      (40 ≤ n → n < 60 → grade_of n = "D") ∧
      (n < 40 → grade_of n = "F")) ∧
    (∀ a b : ℕ, a ≤ b → gradeRank (grade_of a) ≤ gradeRank (grade_of b)) := by
  set q : ℕ := (max 0 (100 -
      10 * ((formatting_issues.length + content_issues.length : ℕ) : ℤ) -
      5 * (outdated_tech.length : ℤ))).toNat with hq
  have hq100 : q ≤ 100 := by
    rw [hq]
    omega
  have hcalc : calculate_scores formatting_issues content_issues outdated_tech
      jd_match_score =
      ((4 * q + 6 * jd_match_score + 5) / 10,
        grade_of ((4 * q + 6 * jd_match_score + 5) / 10)) := rfl
  refine ⟨?_, ?_, ?_, ?_, ?_⟩
  · rw [hcalc]
    show (4 * q + 6 * jd_match_score + 5) / 10 ≤ 100
    omega
  · rw [hcalc, roundMix]
  · rw [hcalc]
  · intro n
    refine ⟨?_, ?_, ?_, ?_, ?_⟩ <;> intros <;> unfold grade_of <;>
      split_ifs <;> first | rfl | omega
  · intro a b hab
    unfold grade_of
    split_ifs <;> first | decide | omega

/-- C3 witness: at zero issues, zero outdated tech and jdMatchScore 0 the
hypothesis holds, the final score is 40 and the grade "D" (the spec's
scenario), and the score bound from the theorem applies. -/
theorem C3_witness :
    (0 : ℕ) ≤ 100 ∧
    (calculate_scores [] [] [] 0).1 ≤ 100 ∧
    calculate_scores [] [] [] 0 = (40, "D") :=
  ⟨by decide, (C3_calculate_scores [] [] [] 0 (by decide)).1, by decide⟩

/-- C4: for every SectionMap with non-empty work_experience text,
`compile_issues` raises the quantification content issue if and only if the
quantification ratio — the fraction of qualifying lines (stripped length
above 15) containing a digit, taken as 0 when there are no such lines — is
strictly below 3/10.  In particular at a ratio of exactly 30% the issue is
not raised. -/
theorem C4_quantification (nlp : Option Nlp) (sections : Sections)
    (raw_text : String) (h : sections.work_experience ≠ "") :
    (quantMsg ∈ (compile_issues nlp sections raw_text).2.1 ↔
      quantFrac sections.work_experience < 3 / 10) := by
  show quantMsg ∈ summaryIssues sections.profile_summary ++
      educationIssues sections.education ++
      expIssues sections.work_experience ↔ _
  rw [List.append_assoc, List.mem_append, List.mem_append]
  have h1 := quantMsg_not_mem_summaryIssues sections.profile_summary
  have h2 := quantMsg_not_mem_educationIssues sections.education
  have h3 : quantMsg ∈ expIssues sections.work_experience ↔
      quantFrac sections.work_experience < 3 / 10 := by
    unfold expIssues quantFrac
    rw [if_pos h]
    rcases Nat.eq_zero_or_pos (expQualifyingLines
        sections.work_experience).length with hz | hpos
    · rw [if_pos (Or.inl hz), if_pos hz]
      simp
    · have hz' : (expQualifyingLines sections.work_experience).length ≠ 0 :=
        Nat.pos_iff_ne_zero.mp hpos
      rw [if_neg hz']
      have hiff : (expQuantifiedCount sections.work_experience : ℚ) /
          ((expQualifyingLines sections.work_experience).length : ℚ) < 3 / 10 ↔
          10 * expQuantifiedCount sections.work_experience <
            3 * (expQualifyingLines sections.work_experience).length := by
        rw [div_lt_div_iff₀ (by exact_mod_cast hpos) (by norm_num)]
        constructor
        · intro hlt
          have : (10 * expQuantifiedCount sections.work_experience : ℚ) <
              (3 * (expQualifyingLines sections.work_experience).length : ℚ) := by
            linarith
          exact_mod_cast this
        · intro hlt
          have : (10 * expQuantifiedCount sections.work_experience : ℚ) <
              (3 * (expQualifyingLines sections.work_experience).length : ℚ) := by
            exact_mod_cast hlt
          push_cast at this
          linarith
      rw [hiff]
      split_ifs with hc
      · simp only [List.mem_cons, List.not_mem_nil, or_false, true_iff]
        rcases hc with hc | hc
        · exact absurd hc hz'
        · exact hc
      · simp only [List.not_mem_nil, false_iff]
        intro hlt
        exact hc (Or.inr hlt)
  constructor
  · intro hm
    rcases hm with hm | hm | hm
    · exact absurd hm h1
    · exact absurd hm h2
    · exact h3.mp hm
  · intro hlt
    exact Or.inr (Or.inr (h3.mpr hlt))

/-- C4 witness: on a work-experience section with ten qualifying lines of
which exactly three contain a digit (ratio exactly 30%), the quantification
issue is NOT raised. -/
theorem C4_witness :
    quantMsg ∉ (compile_issues none c4Sections "").2.1 := by
  intro hm
  have h := (C4_quantification none c4Sections "" (by decide)).mp hm
  have h10 : (expQualifyingLines c4Sections.work_experience).length = 10 := by
    decide
  have h3 : expQuantifiedCount c4Sections.work_experience = 3 := by
    decide
  rw [quantFrac, if_neg (by rw [h10]; decide), h10, h3] at h
  norm_num at h

/-- C5: with the lemmatizer available and a non-empty job-description lemma
set, the missing and overlap keyword lists returned by
`match_job_description` partition the job-description lemma set (union equals
it, intersection empty) and each list is sorted ascending. -/
theorem C5_keywords_partition (f : Nlp)
    (resume_text job_description_text : String)
    (h : lemmaList f (pyLower job_description_text) ≠ []) :
    ((match_job_description (some f) resume_text
        job_description_text).missing_keywords.toFinset ∪
      (match_job_description (some f) resume_text
        job_description_text).overlap_keywords.toFinset =
      (lemmaList f (pyLower job_description_text)).toFinset) ∧
    (∀ x, x ∈ (match_job_description (some f) resume_text
        job_description_text).missing_keywords →
      x ∉ (match_job_description (some f) resume_text
        job_description_text).overlap_keywords) ∧
    (match_job_description (some f) resume_text
      job_description_text).missing_keywords.Sorted (· ≤ ·) ∧
    (match_job_description (some f) resume_text
      job_description_text).overlap_keywords.Sorted (· ≤ ·) := by
  have hred : match_job_description (some f) resume_text job_description_text =
      { score := pyDivMul100Trunc
          ((lemmaList f (pyLower resume_text)).filter
            (fun x => x ∈ lemmaList f (pyLower job_description_text))).length
          (lemmaList f (pyLower job_description_text)).length
        missing_keywords := List.insertionSort (· ≤ ·)
          ((lemmaList f (pyLower job_description_text)).filter
            (fun x => x ∉ lemmaList f (pyLower resume_text)))
        overlap_keywords := List.insertionSort (· ≤ ·)
          ((lemmaList f (pyLower resume_text)).filter
            (fun x => x ∈ lemmaList f (pyLower job_description_text))) } := by
    simp only [match_job_description]
    rw [if_neg h]
  rw [hred]
  refine ⟨?_, ?_, ?_, ?_⟩
  · rw [List.toFinset_eq_of_perm _ _ (List.perm_insertionSort (· ≤ ·) _),
      List.toFinset_eq_of_perm _ _ (List.perm_insertionSort (· ≤ ·) _)]
    ext a
    simp only [Finset.mem_union, List.mem_toFinset, List.mem_filter,
      decide_eq_true_eq]
    by_cases ha : a ∈ lemmaList f (pyLower resume_text) <;> tauto
  · intro x hx hy
    rw [List.mem_insertionSort] at hx hy
    rw [List.mem_filter] at hx hy
    rcases hx with ⟨-, hx2⟩
    rcases hy with ⟨hy1, -⟩
    exact (of_decide_eq_true hx2) hy1
  · exact List.sorted_insertionSort (· ≤ ·) _
  · exact List.sorted_insertionSort (· ≤ ·) _

/-- C5 witness: at the concrete lemmatizer and texts of the C1
counterexample the job-description lemma set is non-empty and the partition
equation holds. -/
theorem C5_witness :
    lemmaList testNlp (pyLower "alpha beta gamma") ≠ [] ∧
    ((match_job_description (some testNlp) "alpha beta"
        "alpha beta gamma").missing_keywords.toFinset ∪
      (match_job_description (some testNlp) "alpha beta"
        "alpha beta gamma").overlap_keywords.toFinset =
      (lemmaList testNlp (pyLower "alpha beta gamma")).toFinset) :=
  ⟨by decide,
    (C5_keywords_partition testNlp "alpha beta" "alpha beta gamma"
      (by decide)).1⟩

/-- C6: when `analyze_resume` runs with no job description, the substituted
default is determined by scoring each domain of the fixed table by the count
of its keywords occurring as substrings of the lowercased raw text: the
scored table decomposes around the chosen entry with every earlier domain
scoring strictly less (first-seen domain wins ties) and every later domain
scoring no more, and the job description used is that domain's fixed default
when its count exceeds 2, otherwise the generic default. -/
theorem C6_domain_inference (raw_text : String) :
    ∃ best pre post,
      domain_scores (pyLower raw_text) = pre ++ best :: post ∧
      (∀ p ∈ pre, p.2 < best.2) ∧
      (∀ q ∈ post, q.2 ≤ best.2) ∧
      resolveJD raw_text none =
        (if 2 < best.2 then lookupJD best.1 else lookupJD "generic") := by
  obtain ⟨x, xs, hx⟩ :
      ∃ x xs, domain_scores (pyLower raw_text) = x :: xs := ⟨_, _, rfl⟩
  obtain ⟨pre, post, heq, hpre, hpost⟩ := pyMaxFold_first xs x
  refine ⟨xs.foldl pyMaxStep x, pre, post, ?_, hpre, hpost, ?_⟩
  · rw [hx]
    exact heq
  · show inferredJD raw_text = _
    simp only [inferredJD]
    rw [hx]
    show lookupJD (if 2 < (xs.foldl pyMaxStep x).2
        then (xs.foldl pyMaxStep x).1 else "generic") = _
    rw [apply_ite lookupJD]

/-- C7: when the PDF text layer yields fewer than 150 stripped characters and
the OCR engine is unavailable, `analyze_resume` returns the distinct
OcrEngineMissing error ("Tesseract OCR is not installed."), which differs
from the generic extraction-failure message and is not a report, so no
downstream stage contributes to the result. -/
theorem C7_ocr_missing (α : Type) (getText : α → String) (nlp : Option Nlp)
    (summarize : Option (String → String)) (pages : List α)
    (jd : Option String) (hne : pages ≠ [])
    (hlow : (pyStrip (joinAll (pages.map getText))).length < 150) :
    analyze_resume α getText none nlp summarize (DocSource.pdf pages) jd =
        .failure tesseractMsg ∧
    tesseractMsg ≠ extractFailMsg := by
  refine ⟨?_, by decide⟩
  obtain ⟨p, ps, rfl⟩ : ∃ p ps, pages = p :: ps := by
    cases pages with
    | nil => exact absurd rfl hne
    | cons p ps => exact ⟨p, ps, rfl⟩
  have hext : extract_text_from_pdf α getText none (p :: ps) =
      (tesseractSentinel, false) := by
    unfold extract_text_from_pdf
    rw [if_pos hlow]
  have hmaster : master_text_extractor α getText none (DocSource.pdf (p :: ps)) =
      (some tesseractSentinel, emptySections, false) := by
    simp only [master_text_extractor, hext]
    simp
  simp only [analyze_resume, hmaster]
  simp only [tesseractSentinel]
  simp

/-- C7 witness: a one-page PDF whose text layer reads "hi", with no OCR
engine, yields exactly the OcrEngineMissing error. -/
theorem C7_witness :
    analyze_resume String id none none none (DocSource.pdf ["hi"]) none =
      .failure tesseractMsg :=
  (C7_ocr_missing String id none none ["hi"] none (by decide) (by decide)).1

/-- C8: on any input text none of whose lines is recognized as a heading,
segmentation returns all four sections empty, and the issue compiler flags
the missing-skills and missing-work-experience formatting issues and the
education "not found" content issue, while the degree/institution and
graduation-year education issues are not raised. -/
theorem C8_no_headings (nlp : Option Nlp) (text : String)
    (h : ∀ l ∈ pySplitOnNl text, headingKey l = none) :
    parse_sections_by_iteration text = emptySections ∧
    (compile_issues nlp (parse_sections_by_iteration text) text).1 =
      [skillsMissingMsg, workExpMissingMsg] ∧
    (compile_issues nlp (parse_sections_by_iteration text) text).2.1 =
      [eduNotFoundMsg] ∧
    degreeMsg ∉ (compile_issues nlp (parse_sections_by_iteration text) text).2.1 ∧
    yearMsg ∉ (compile_issues nlp (parse_sections_by_iteration text) text).2.1 := by
  have hparse : parse_sections_by_iteration text = emptySections := by
    unfold parse_sections_by_iteration
    rw [foldl_parseStep_none (pySplitOnNl text) h ⟨[], [], [], []⟩]
    rfl
  refine ⟨hparse, ?_, ?_, ?_, ?_⟩ <;> rw [hparse]
  · show formattingIssuesOf emptySections = _
    decide
  · show summaryIssues emptySections.profile_summary ++
      educationIssues emptySections.education ++
      expIssues emptySections.work_experience = _
    decide
  · show degreeMsg ∉ summaryIssues emptySections.profile_summary ++
      educationIssues emptySections.education ++
      expIssues emptySections.work_experience
    decide
  · show yearMsg ∉ summaryIssues emptySections.profile_summary ++
      educationIssues emptySections.education ++
      expIssues emptySections.work_experience
    decide

/-- C8 witness: the text "hello\nworld" has no heading lines; all sections
come out empty and the flagged issues are as stated. -/
theorem C8_witness :
    (∀ l ∈ pySplitOnNl "hello\nworld", headingKey l = none) ∧
    parse_sections_by_iteration "hello\nworld" = emptySections ∧
    (compile_issues none (parse_sections_by_iteration "hello\nworld")
      "hello\nworld").2.1 = [eduNotFoundMsg] :=
  ⟨by decide,
    (C8_no_headings none "hello\nworld" (by decide)).1,
    (C8_no_headings none "hello\nworld" (by decide)).2.2.1⟩

/-- C9: `generate_personalized_recommendations` evaluates exactly five rules
in fixed priority order — job fit (score < 75 and missing keywords exist,
listing at most the first 8 of them), section-header guidance (a formatting
issue containing "section"), profile rewrite ("value proposition" content
issue), quantification guidance ("quantification" content issue), technology
freshness (non-empty outdated-tech) — and returns exactly the single fallback
"resume is strong" message if and only if none of the five rules trigger. -/
theorem C9_recommendation_rules (jd_score : Nat)
    (missing_keywords formatting_issues content_issues outdated_tech :
      List String) :
    (generate_personalized_recommendations jd_score missing_keywords
        formatting_issues content_issues outdated_tech =
      if (jd_score < 75 ∧ missing_keywords ≠ []) ∨
          formatting_issues.any (fun i => strContains i "section") = true ∨
          content_issues.any (fun i => strContains i "value proposition")
            = true ∨
          content_issues.any (fun i => strContains i "quantification") = true ∨
          outdated_tech ≠ [] then
        (if jd_score < 75 ∧ missing_keywords ≠ [] then
          [jobFitRecMsg missing_keywords] else []) ++
        (if formatting_issues.any (fun i => strContains i "section") then
          [sectionHeadersRecMsg] else []) ++
        (if content_issues.any (fun i => strContains i "value proposition") then
          [profileRecMsg] else []) ++
        (if content_issues.any (fun i => strContains i "quantification") then
          [quantifyRecMsg] else []) ++
        (if outdated_tech ≠ [] then [techRecMsg] else [])
      else [fallbackRecMsg]) ∧
    (generate_personalized_recommendations jd_score missing_keywords
        formatting_issues content_issues outdated_tech = [fallbackRecMsg] ↔
      ¬((jd_score < 75 ∧ missing_keywords ≠ []) ∨
        formatting_issues.any (fun i => strContains i "section") = true ∨
        content_issues.any (fun i => strContains i "value proposition")
          = true ∨
        content_issues.any (fun i => strContains i "quantification") = true ∨
        outdated_tech ≠ [])) ∧
    (missing_keywords.take 8).length ≤ 8 ∧
    (∃ rest, missing_keywords = missing_keywords.take 8 ++ rest) := by
  have hmain : generate_personalized_recommendations jd_score missing_keywords
      formatting_issues content_issues outdated_tech =
      if (jd_score < 75 ∧ missing_keywords ≠ []) ∨
          formatting_issues.any (fun i => strContains i "section") = true ∨
          content_issues.any (fun i => strContains i "value proposition")
            = true ∨
          content_issues.any (fun i => strContains i "quantification") = true ∨
          outdated_tech ≠ [] then
        (if jd_score < 75 ∧ missing_keywords ≠ [] then
          [jobFitRecMsg missing_keywords] else []) ++
        (if formatting_issues.any (fun i => strContains i "section") then
          [sectionHeadersRecMsg] else []) ++
        (if content_issues.any (fun i => strContains i "value proposition") then
          [profileRecMsg] else []) ++
        (if content_issues.any (fun i => strContains i "quantification") then
          [quantifyRecMsg] else []) ++
        (if outdated_tech ≠ [] then [techRecMsg] else [])
      else [fallbackRecMsg] := by
    unfold generate_personalized_recommendations
    by_cases h1 : jd_score < 75 ∧ missing_keywords ≠ [] <;>
      by_cases h2 : formatting_issues.any (fun i => strContains i "section")
        = true <;>
      by_cases h3 : content_issues.any
        (fun i => strContains i "value proposition") = true <;>
      by_cases h4 : content_issues.any (fun i => strContains i "quantification")
        = true <;>
      by_cases h5 : outdated_tech ≠ [] <;>
      simp [h1, h2, h3, h4, h5]
  refine ⟨hmain, ?_, ?_, ?_⟩
  · by_cases hc : (jd_score < 75 ∧ missing_keywords ≠ []) ∨
        formatting_issues.any (fun i => strContains i "section") = true ∨
        content_issues.any (fun i => strContains i "value proposition")
          = true ∨
        content_issues.any (fun i => strContains i "quantification") = true ∨
        outdated_tech ≠ []
    · rw [hmain, if_pos hc]
      constructor
      · intro heq
        exfalso
        have hmem : fallbackRecMsg ∈
            (if jd_score < 75 ∧ missing_keywords ≠ [] then
              [jobFitRecMsg missing_keywords] else []) ++
            (if formatting_issues.any (fun i => strContains i "section") then
              [sectionHeadersRecMsg] else []) ++
            (if content_issues.any
                (fun i => strContains i "value proposition") then
              [profileRecMsg] else []) ++
            (if content_issues.any (fun i => strContains i "quantification") then
              [quantifyRecMsg] else []) ++
            (if outdated_tech ≠ [] then [techRecMsg] else []) := by
          rw [heq]
          exact List.mem_cons_self _ _
        have hstar : fallbackRecMsg.data.head? = some '*' := by
          simp only [List.mem_append] at hmem
          rcases hmem with ((((hm | hm) | hm) | hm) | hm) <;>
            (split_ifs at hm <;>
              simp only [List.mem_cons, List.not_mem_nil, or_false] at hm) <;>
            first
              | exact hm.elim
              | (rw [hm]; rfl)
        exact absurd hstar (by decide)
      · intro hnc
        exact absurd hc hnc
    · rw [hmain, if_neg hc]
      exact iff_of_true rfl hc
  · rw [List.length_take]
    omega
  · exact ⟨missing_keywords.drop 8, (List.take_append_drop 8 missing_keywords).symm⟩

/-- C10: calling `analyze_resume` with an empty-string job description (as
the web layer does for a blank form field) behaves identically to calling it
with no job description: the empty string is treated as missing, domain
inference runs and a default job description is substituted. -/
theorem C10_empty_jd_equiv (α : Type) (getText : α → String)
    (ocr : Option (α → String)) (nlp : Option Nlp)
    (summarize : Option (String → String)) (src : DocSource α) :
    analyze_resume α getText ocr nlp summarize src (some "") =
      analyze_resume α getText ocr nlp summarize src none ∧
    ∀ raw_text : String, resolveJD raw_text (some "") = inferredJD raw_text :=
  ⟨rfl, fun _ => rfl⟩
